import Mathlib

/-!
Verification of the `vector` SVG diagram library core against its
natural-language specification.  The TypeScript sources are shallowly
embedded: JavaScript IEEE-754 numbers are modelled as exact rationals
extended with the special values `Infinity`, `-Infinity` and `NaN`
(rounding is not modelled; the sign of zero is collapsed to a single
zero, which does not affect any comparison or branch in the embedded
code), DOM element trees are modelled as rose trees, and the browser
APIs the code calls out to (trigonometry, path-length queries) are
passed in as explicit oracle parameters.
-/

/-- A JavaScript number: an exact rational, or one of the IEEE special
values `Infinity`, `-Infinity`, `NaN`. -/
inductive JNum where
  | fin : ℚ → JNum
  | inf : JNum
  | ninf : JNum
  | nan : JNum
deriving DecidableEq, Repr

namespace JNum

/-- JavaScript addition on the extended numbers (exact on finite values). -/
def jadd : JNum → JNum → JNum
  | nan, _ => nan
  | _, nan => nan
  | inf, ninf => nan
  | ninf, inf => nan
  | inf, _ => inf
  | _, inf => inf
  | ninf, _ => ninf
  | _, ninf => ninf
  | fin a, fin b => fin (a + b)

/-- JavaScript negation. -/
def jneg : JNum → JNum
  | nan => nan
  | inf => ninf
  | ninf => inf
  | fin a => fin (-a)

/-- JavaScript subtraction. -/
def jsub (a b : JNum) : JNum := jadd a (jneg b)

/-- JavaScript multiplication; `0 * Infinity` is `NaN`. -/
def jmul : JNum → JNum → JNum
  | nan, _ => nan
  | _, nan => nan
  | fin a, fin b => fin (a * b)
  | fin a, inf => if 0 < a then inf else if a < 0 then ninf else nan
  | inf, fin a => if 0 < a then inf else if a < 0 then ninf else nan
  | fin a, ninf => if 0 < a then ninf else if a < 0 then inf else nan
  | ninf, fin a => if 0 < a then ninf else if a < 0 then inf else nan
  | inf, inf => inf
  | inf, ninf => ninf
  | ninf, inf => ninf
  | ninf, ninf => inf

/-- JavaScript division; division of a nonzero finite number by zero
yields a signed infinity, `0 / 0` yields `NaN`. -/
def jdiv : JNum → JNum → JNum
  | nan, _ => nan
  | _, nan => nan
  | fin a, fin b =>
      if b = 0 then (if a = 0 then nan else if 0 < a then inf else ninf)
      else fin (a / b)
  | fin _, inf => fin 0
  | fin _, ninf => fin 0
  | inf, fin b => if 0 ≤ b then inf else ninf
  | ninf, fin b => if 0 ≤ b then ninf else inf
  | inf, inf => nan
  | inf, ninf => nan
  | ninf, inf => nan
  | ninf, ninf => nan

/-- JavaScript `<=`; any comparison with `NaN` is false. -/
def jle : JNum → JNum → Bool
  | nan, _ => false
  | _, nan => false
  | ninf, _ => true
  | _, ninf => false
  | _, inf => true
  | inf, _ => false
  | fin a, fin b => decide (a ≤ b)

/-- JavaScript `<`; any comparison with `NaN` is false. -/
def jlt : JNum → JNum → Bool
  | nan, _ => false
  | _, nan => false
  | _, ninf => false
  | ninf, _ => true
  | inf, _ => false
  | _, inf => true
  | fin a, fin b => decide (a < b)

/-- JavaScript `isFinite`. -/
def isFinite : JNum → Bool
  | fin _ => true
  | _ => false

end JNum

/-! ## `src/util/math.ts` -/

/-- Embeds `pointWhereTwoLinesIntersect` from `src/util/math.ts`.  The first
line is defined by `p1`, `p2`; the second by `p3`, `p4`.  Each point is an
`(x, y)` pair of JavaScript numbers. -/
def pointWhereTwoLinesIntersect (p1 p2 p3 p4 : JNum × JNum) : JNum × JNum :=
  let slope1 := JNum.jdiv (JNum.jsub p2.2 p1.2) (JNum.jsub p2.1 p1.1)
  let slope2 := JNum.jdiv (JNum.jsub p4.2 p3.2) (JNum.jsub p4.1 p3.1)
  let b1 := JNum.jsub p2.2 (JNum.jmul p2.1 slope1)
  let b2 := JNum.jsub p4.2 (JNum.jmul p4.1 slope2)
  let x := JNum.jdiv (JNum.jsub b2 b1) (JNum.jsub slope1 slope2)
  if JNum.isFinite slope1 = false then
    let x' := p1.1
    (x', JNum.jadd p3.2 (JNum.jmul slope2 (JNum.jsub x' p3.1)))
  else if JNum.isFinite slope2 = false then
    let x' := p3.1
    (x', JNum.jadd p1.2 (JNum.jmul slope1 (JNum.jsub x' p1.1)))
  else
    (x, JNum.jadd p1.2 (JNum.jmul slope1 (JNum.jsub x p1.1)))

/-- Three points are collinear (exact rational cross-product form). -/
def collinearQ (a b c : ℚ × ℚ) : Prop :=
  (b.2 - a.2) * (c.1 - a.1) = (c.2 - a.2) * (b.1 - a.1)

/-- Embeds `factorial` from `src/util/math.ts`.  The source is a module-scope
function of an ES module (strict mode), so the `this` binding visible inside
the function body is whatever receiver the call supplies — `undefined` for a
plain call.  Reading the property `factorial` off `undefined` throws a
`TypeError`.  The binding is passed explicitly; `factorial` itself is the
module-scope plain call, whose `this` is `undefined` (`none`). -/
def factorialJS (thisBinding : Option (ℚ → Except String ℚ)) (n : ℚ) :
    Except String ℚ :=
  if n < 1 then Except.ok 1
  else
    match thisBinding with
    | none => Except.error "TypeError: Cannot read properties of undefined"
    | some f => (f (n - 1)).map (fun r => n * r)

/-- `factorial(n)` as called by any importer: plain call, `this = undefined`. -/
def factorial (n : ℚ) : Except String ℚ := factorialJS none n

/-! ## `findLineEndpoints` (coordinate-system source file) -/

/-- The JavaScript sort comparator `(a, b) => a[0] - b[0] || a[1] - b[1]`:
the `||` falls through to the second difference when the first is zero (or
`NaN`, which is also falsy). -/
def ptCmp (a b : JNum × JNum) : JNum :=
  match JNum.jsub a.1 b.1 with
  | JNum.fin q => if q = 0 then JNum.jsub a.2 b.2 else JNum.fin q
  | JNum.nan => JNum.jsub a.2 b.2
  | d1 => d1

/-- `a` may stay before `b` when the comparator is non-positive. -/
def ptLe (a b : JNum × JNum) : Bool := JNum.jle (ptCmp a b) (JNum.fin 0)

/-- Insert into a list sorted by `le`, keeping existing elements first among
ties (models a stable comparison sort). -/
def insertSorted (le : α → α → Bool) (x : α) : List α → List α
  | [] => [x]
  | y :: ys => if le y x then y :: insertSorted le x ys else x :: y :: ys

/-- A comparison sort by `le` (insertion sort; agrees with JavaScript
`Array.prototype.sort` for a consistent comparator). -/
def sortJS (le : α → α → Bool) (l : List α) : List α :=
  l.foldr (insertSorted le) []

/-- The source's inline boundary test `lo <= v && v <= hi` on JavaScript
numbers. -/
def inRange (lo v hi : JNum) : Bool := JNum.jle lo v && JNum.jle v hi

/-- Embeds `findLineEndpoints` from the coordinate-system class: the two
points where the infinite line through the origin with direction `(vx, vy)`
crosses the axis-aligned viewport `(minX, minY, width, height)`.  The pushes
into `potentialEndpoints` happen in source order: left, right, bottom, top,
then the vertical and horizontal special cases. -/
def findLineEndpoints (vx vy minX minY width height : JNum) :
    List (JNum × JNum) :=
  let slope := if vx = JNum.fin 0 then JNum.inf else JNum.jdiv vy vx
  let leftIntersectionY := JNum.jmul slope minX
  let rightIntersectionY := JNum.jmul slope (JNum.jadd minX width)
  let e1 :=
    if inRange minY leftIntersectionY (JNum.jadd minY height) then
      [(minX, leftIntersectionY)] else []
  let e2 :=
    if inRange minY rightIntersectionY (JNum.jadd minY height) then
      [(JNum.jadd minX width, rightIntersectionY)] else []
  let e34 :=
    if slope = JNum.inf then []
    else
      let bottomIntersectionX := JNum.jdiv minY slope
      let topIntersectionX := JNum.jdiv (JNum.jadd minY height) slope
      (if inRange minX bottomIntersectionX (JNum.jadd minX width) then
        [(bottomIntersectionX, minY)] else []) ++
      (if inRange minX topIntersectionX (JNum.jadd minX width) then
        [(topIntersectionX, JNum.jadd minY height)] else [])
  let ev :=
    if vx = JNum.fin 0 then
      [(JNum.fin 0, minY), (JNum.fin 0, JNum.jadd minY height)] else []
  let eh :=
    if vy = JNum.fin 0 then
      [(minX, JNum.fin 0), (JNum.jadd minX width, JNum.fin 0)] else []
  let pts := e1 ++ e2 ++ e34 ++ ev ++ eh
  if 2 < pts.length then
    let sorted := sortJS ptLe pts
    [sorted.headD (JNum.fin 0, JNum.fin 0),
     sorted.getLastD (JNum.fin 0, JNum.fin 0)]
  else
    pts

/-! ## `src/elements/tex.ts`: typeset trees and structural matching

The math-typesetting engine (MathJax) is an opaque boundary: it turns a TeX
string into a tree of SVG elements.  An element is modelled by its tag name,
its `data-mml-node` attribute (structural kind, absent on glyph leaves'
inner nodes), its `data-c` attribute (glyph identity), its `style.fill`
property, and its ordered children.  `getMatchesByTex` in the source
renders the candidate string, flattens it, and selects the subtree rooted
at `[data-mml-node="math"]` on both sides; the two `Elem` arguments of the
embedded operations are those two math-rooted trees. -/

/-- A rendered element node of a typeset tree. -/
inductive Elem where
  | mk (tagName : String) (mmlNode : Option String) (dataC : Option String)
      (fill : Option String) (children : List Elem)

/-- The element's tag name. -/
def Elem.tagName : Elem → String
  | .mk t _ _ _ _ => t

/-- The element's `data-mml-node` attribute. -/
def Elem.mmlNode : Elem → Option String
  | .mk _ m _ _ _ => m

/-- The element's `data-c` attribute. -/
def Elem.dataC : Elem → Option String
  | .mk _ _ c _ _ => c

/-- The element's `style.fill` property. -/
def Elem.fill : Elem → Option String
  | .mk _ _ _ f _ => f

/-- The element's children. -/
def Elem.children : Elem → List Elem
  | .mk _ _ _ _ ch => ch

mutual

/-- Embeds `nodeMatches` from `findSubtreeMatches` in `src/elements/tex.ts`:
equal tag names, equal `data-mml-node` values, equal `data-c` values when
the FIRST argument (the node of the searched tree) carries a `data-c`
attribute, and pairwise matching children. -/
def nodeMatches : Elem → Elem → Bool
  | .mk t1 m1 c1 _ ch1, .mk t2 m2 c2 _ ch2 =>
    decide (t1 = t2) && decide (m1 = m2) &&
    (match c1 with
     | none => true
     | some v => decide (c2 = some v)) &&
    nodesMatch ch1 ch2

/-- Same child count and pairwise `nodeMatches` (the source's explicit
length check followed by the indexed loop). -/
def nodesMatch : List Elem → List Elem → Bool
  | [], [] => true
  | _ :: _, [] => false
  | [], _ :: _ => false
  | a :: as, b :: bs => nodeMatches a b && nodesMatch as bs

end

mutual

/-- Number of element nodes in a tree. -/
def esize : Elem → Nat
  | .mk _ _ _ _ ch => 1 + esizeList ch

/-- Number of element nodes in a forest. -/
def esizeList : List Elem → Nat
  | [] => 0
  | a :: as => esize a + esizeList as

end

/-- The sequential-sibling walk of `findSubtreeMatches`: starting at a
sibling position, the candidate children must all be consumed in order by
successive siblings (`lastMatch === subtree.lastChild`); leftover siblings
are fine, leftover candidate children are not. -/
def seqPairs : List Elem → List Elem → Bool
  | _, [] => true
  | [], _ :: _ => false
  | s :: ss, c :: cs => nodeMatches s c && seqPairs ss cs

/-- One level of the traversal of `findSubtreeMatches`: for each child
position (`i` is the absolute index of the head of `sibs` in its sibling
list, `pre` the address of the parent) push the deep match and then the
sequential match found at that position.  A match is a list of addresses
(paths of child indices from the root). -/
def levelMatches (pre : List Nat) (sub : Elem) : Nat → List Elem →
    List (List (List Nat))
  | _, [] => []
  | i, s :: rest =>
    (if nodeMatches s sub then [[pre ++ [i]]] else []) ++
    (if seqPairs (s :: rest) sub.children then
      [(List.range sub.children.length).map (fun j => pre ++ [i + j])]
     else []) ++
    levelMatches pre sub (i + 1) rest

mutual

/-- The recursive traversal of `findSubtreeMatches`: all matches found among
the node's children, then the matches of each child's subtree in order. -/
def traverseElem (pre : List Nat) (sub : Elem) : Elem →
    List (List (List Nat))
  | .mk _ _ _ _ ch =>
    levelMatches pre sub 0 ch ++ traverseChildren pre sub 0 ch

/-- Traversal of a forest of children starting at child index `i`. -/
def traverseChildren (pre : List Nat) (sub : Elem) : Nat → List Elem →
    List (List (List Nat))
  | _, [] => []
  | i, c :: rest =>
    traverseElem (pre ++ [i]) sub c ++ traverseChildren pre sub (i + 1) rest

end

/-- Embeds `findSubtreeMatches` from `src/elements/tex.ts`: matches are
returned as lists of root-relative addresses. -/
def findSubtreeMatches (root sub : Elem) : List (List (List Nat)) :=
  traverseElem [] sub root

/-- Embeds `getMatchesByTex`: the rendering and flattening of the candidate
string and the `[data-mml-node="math"]` selection are the opaque engine
boundary; both arguments are the math-rooted trees. -/
def getMatchesByTex (tree sub : Elem) : List (List (List Nat)) :=
  findSubtreeMatches tree sub

mutual

/-- Look up the node at an address. -/
def getNode : Elem → List Nat → Option Elem
  | e, [] => some e
  | .mk _ _ _ _ ch, i :: rest => getNodeList ch i rest

/-- Look up the node at an address inside a forest. -/
def getNodeList : List Elem → Nat → List Nat → Option Elem
  | [], _, _ => none
  | c :: _, 0, rest => getNode c rest
  | _ :: cs, n + 1, rest => getNodeList cs n rest

end

mutual

/-- `node.style.fill = color` on the node at the given address (no other
node and no other field is touched; a dangling address changes nothing). -/
def setFillAt (color : String) : Elem → List Nat → Elem
  | .mk t m c _ ch, [] => .mk t m c (some color) ch
  | .mk t m c f ch, i :: rest => .mk t m c f (setFillAtList color ch i rest)

/-- `setFillAt` inside a forest. -/
def setFillAtList (color : String) : List Elem → Nat → List Nat → List Elem
  | [], _, _ => []
  | c :: cs, 0, rest => setFillAt color c rest :: cs
  | c :: cs, n + 1, rest => c :: setFillAtList color cs n rest

end

/-- A node's own fields (tag name, `data-mml-node`, `data-c`, `style.fill`)
without its children, for stating which nodes a recolor call touches. -/
def ownData (e : Elem) : String × Option String × Option String × Option String :=
  (e.tagName, e.mmlNode, e.dataC, e.fill)

/-- The own fields of the node at an address. -/
def nodeAt (t : Elem) (a : List Nat) :
    Option (String × Option String × Option String × Option String) :=
  (getNode t a).map ownData

/-- The body of the `forEach` recolor loop: set `style.fill` on every node
of one match. -/
def recolorMatch (color : String) (t : Elem) (addrs : List (List Nat)) :
    Elem :=
  addrs.foldl (fun acc a => setFillAt color acc a) t

/-- Embeds `setColor` from `src/elements/tex.ts` as explicit state passing:
the pair is (thrown-or-returned outcome, the rendered tree after the call).
Both `throw` statements run before any mutation, so the tree component is
unchanged on the error paths, exactly as in the source. -/
def setColor (t sub : Elem) (color : String) (index : Int) :
    Except String Unit × Elem :=
  let found := getMatchesByTex t sub
  if found.length = 0 then
    (Except.error "Found no match", t)
  else if index < 0 ∨ (found.length : Int) ≤ index then
    (Except.error "Index is out of range", t)
  else
    (Except.ok (), recolorMatch color t (found.getD index.toNat []))

/-- Embeds `setColorAll` from `src/elements/tex.ts`: recolor every match,
never raising. -/
def setColorAll (t sub : Elem) (color : String) : Elem :=
  (getMatchesByTex t sub).foldl (fun acc m => recolorMatch color acc m) t

mutual

/-- The deep-match predicate AS WORDED BY THE SPEC CLAIM: structural-kind
tags equal, glyph-identity tags compared exactly when the CANDIDATE node
(the second argument) carries one, children equal in count and pairwise
deep-matching.  Written from the claim, for comparison with `nodeMatches`
from the source. -/
def claimDeepMatch : Elem → Elem → Bool
  | .mk t1 m1 c1 _ ch1, .mk t2 m2 c2 _ ch2 =>
    decide (t1 = t2) && decide (m1 = m2) &&
    (match c2 with
     | none => true
     | some v => decide (c1 = some v)) &&
    claimDeepMatchList ch1 ch2

/-- Children clause of `claimDeepMatch`. -/
def claimDeepMatchList : List Elem → List Elem → Bool
  | [], [] => true
  | _ :: _, [] => false
  | [], _ :: _ => false
  | a :: as, b :: bs => claimDeepMatch a b && claimDeepMatchList as bs

end

mutual

/-- The deep-match predicate as the amended claim words it: the
glyph-identity comparison is guarded by the TARGET node (first argument)
carrying a `data-c` attribute. -/
def amendedDeepMatch : Elem → Elem → Bool
  | .mk t1 m1 c1 _ ch1, .mk t2 m2 c2 _ ch2 =>
    decide (t1 = t2) && decide (m1 = m2) &&
    (match c1 with
     | none => true
     | some v => decide (c2 = some v)) &&
    amendedDeepMatchList ch1 ch2

/-- Children clause of `amendedDeepMatch`. -/
def amendedDeepMatchList : List Elem → List Elem → Bool
  | [], [] => true
  | _ :: _, [] => false
  | [], _ :: _ => false
  | a :: as, b :: bs => amendedDeepMatch a b && amendedDeepMatchList as bs

end

/-! ## `src/util/svg.ts`: the export pipeline

An SVG document is a rose tree of elements.  Every node carries a model
identity `nid` (standing for JavaScript object identity: the source keeps
element references in snapshot arrays while mutating the document); clones
receive fresh identities.  Attribute values are strings, except that
numeric attributes are tracked as exact JavaScript numbers and the
`transform` template string written by `processMarker` is kept as its four
numeric components. -/

/-- An attribute value: a DOM string, a numeric value written by the code,
or the `translate(x,y) rotate(deg) scale(s)` template string of
`processMarker`. -/
inductive AttrV where
  | str : String → AttrV
  | num : JNum → AttrV
  | tfm : JNum → JNum → JNum → JNum → AttrV
deriving DecidableEq, Repr

/-- A DOM element: identity, tag name, attributes in order, children. -/
inductive XNode where
  | mk (nid : Nat) (tag : String) (attrs : List (String × AttrV))
      (children : List XNode)

/-- The element's model identity. -/
def XNode.nid : XNode → Nat
  | .mk i _ _ _ => i

/-- The element's tag name. -/
def XNode.tag : XNode → String
  | .mk _ t _ _ => t

/-- The element's attributes. -/
def XNode.attrs : XNode → List (String × AttrV)
  | .mk _ _ a _ => a

/-- The element's children. -/
def XNode.children : XNode → List XNode
  | .mk _ _ _ ch => ch

/-- `getAttribute`: first binding of the name, `null` when absent. -/
def getAttrList (name : String) : List (String × AttrV) → Option AttrV
  | [] => none
  | (k, v) :: rest => if k = name then some v else getAttrList name rest

/-- `getAttribute` on an element. -/
def XNode.getAttr (n : XNode) (name : String) : Option AttrV :=
  getAttrList name n.attrs

/-- `setAttribute` on an attribute list: overwrite in place, else append. -/
def setAttrList (name : String) (v : AttrV) :
    List (String × AttrV) → List (String × AttrV)
  | [] => [(name, v)]
  | (k, w) :: rest =>
    if k = name then (k, v) :: rest else (k, w) :: setAttrList name v rest

/-- `setAttribute` on an element. -/
def XNode.setAttr (n : XNode) (name : String) (v : AttrV) : XNode :=
  .mk n.nid n.tag (setAttrList name v n.attrs) n.children

/-- `removeAttribute` on an attribute list. -/
def removeAttrList (name : String) :
    List (String × AttrV) → List (String × AttrV)
  | [] => []
  | (k, w) :: rest =>
    if k = name then removeAttrList name rest
    else (k, w) :: removeAttrList name rest

/-- `removeAttribute` on an element. -/
def XNode.removeAttr (n : XNode) (name : String) : XNode :=
  .mk n.nid n.tag (removeAttrList name n.attrs) n.children

mutual

/-- `querySelectorAll(tag)`: identities of all descendants with the tag, in
document order (the root element itself is not considered). -/
def queryAll (tag : String) : XNode → List Nat
  | .mk _ _ _ ch => queryAllList tag ch

/-- `queryAll` over a sibling list. -/
def queryAllList (tag : String) : List XNode → List Nat
  | [] => []
  | c :: cs =>
    (if c.tag = tag then [c.nid] else []) ++ queryAll tag c ++
      queryAllList tag cs

end

mutual

/-- `querySelector("#id")`: first descendant whose `id` attribute is the
string, in document order. -/
def findById (idv : String) : XNode → Option XNode
  | .mk _ _ _ ch => findByIdList idv ch

/-- `findById` over a sibling list. -/
def findByIdList (idv : String) : List XNode → Option XNode
  | [] => none
  | c :: cs =>
    if c.getAttr "id" = some (.str idv) then some c
    else
      match findById idv c with
      | some r => some r
      | none => findByIdList idv cs

end

mutual

/-- Dereference a model identity: the node with that `nid`, if attached. -/
def findNode (k : Nat) : XNode → Option XNode
  | .mk i t a ch =>
    if i = k then some (.mk i t a ch) else findNodeList k ch

/-- `findNode` over a sibling list. -/
def findNodeList (k : Nat) : List XNode → Option XNode
  | [] => none
  | c :: cs =>
    match findNode k c with
    | some r => some r
    | none => findNodeList k cs

end

mutual

/-- `parentNode.replaceChild(new, old)`: replace the attached node with the
given identity by the new node. -/
def replaceNode (k : Nat) (nw : XNode) : XNode → XNode
  | .mk i t a ch => .mk i t a (replaceNodeList k nw ch)

/-- `replaceNode` over a sibling list. -/
def replaceNodeList (k : Nat) (nw : XNode) : List XNode → List XNode
  | [] => []
  | c :: cs =>
    if c.nid = k then nw :: cs
    else replaceNode k nw c :: replaceNodeList k nw cs

end

mutual

/-- `cloneNode(true)`: a deep copy carrying fresh identities; the counter
threads the next unused identity. -/
def cloneFresh : XNode → Nat → XNode × Nat
  | .mk _ t a ch, ctr =>
    let r := cloneFreshList ch (ctr + 1)
    (.mk ctr t a r.1, r.2)

/-- `cloneFresh` over a sibling list. -/
def cloneFreshList : List XNode → Nat → List XNode × Nat
  | [], ctr => ([], ctr)
  | c :: cs, ctr =>
    let r := cloneFresh c ctr
    let r' := cloneFreshList cs r.2
    (r.1 :: r'.1, r'.2)

end

mutual

/-- Largest identity in a document (for seeding the clone counter). -/
def maxId : XNode → Nat
  | .mk i _ _ ch => max i (maxIdList ch)

/-- `maxId` over a sibling list. -/
def maxIdList : List XNode → Nat
  | [] => 0
  | c :: cs => max (maxId c) (maxIdList cs)

end

mutual

/-- `svgElement.querySelector('defs')` followed by `.remove()`: delete the
first `defs` descendant in document order; the flag reports whether one was
found. -/
def removeFirstDefsNode : XNode → XNode × Bool
  | .mk i t a ch =>
    let r := removeFirstDefsList ch
    (.mk i t a r.1, r.2)

/-- `removeFirstDefsNode` over a sibling list. -/
def removeFirstDefsList : List XNode → List XNode × Bool
  | [] => ([], false)
  | c :: cs =>
    if c.tag = "defs" then (cs, true)
    else
      let r := removeFirstDefsNode c
      if r.2 then (r.1 :: cs, true)
      else
        let r' := removeFirstDefsList cs
        (c :: r'.1, r'.2)

end

/-- Remove the shared-definitions container, if any. -/
def removeFirstDefs (d : XNode) : XNode := (removeFirstDefsNode d).1

/-- A JavaScript-truthy string attribute value (`null` and the empty string
are falsy). -/
def strAttrTruthy : Option AttrV → Option String
  | some (.str s) => if s = "" then none else some s
  | _ => none

/-- `use.getAttribute('xlink:href') || use.getAttribute('href')`. -/
def hrefOf (n : XNode) : Option String :=
  match strAttrTruthy (n.getAttr "xlink:href") with
  | some s => some s
  | none => strAttrTruthy (n.getAttr "href")

/-- `svgElement.querySelector(href)` for a fragment selector `#id`. -/
def resolveHref (root : XNode) (href : String) : Option XNode :=
  match href.data with
  | '#' :: rest => findById (String.mk rest) root
  | _ => none

/-- Copy the `use` element's attributes onto the clone, skipping
`xlink:href` and `href`, in attribute order. -/
def copyUseAttrs : List (String × AttrV) → XNode → XNode
  | [], c => c
  | (k, v) :: rest, c =>
    if k = "xlink:href" ∨ k = "href" then copyUseAttrs rest c
    else copyUseAttrs rest (c.setAttr k v)

/-- One iteration of the `useElements.forEach` body of `flattenSVG`: look
the snapshotted `use` element up in the current document (a `use` that an
earlier iteration detached mutates only its detached fragment, which the
resulting document cannot observe), resolve its target in the current
document, deep-clone it, copy the reference's own attributes, and splice
the clone in place of the reference. -/
def flattenStep (st : XNode × Nat) (useId : Nat) : XNode × Nat :=
  match findNode useId st.1 with
  | none => st
  | some useEl =>
    match hrefOf useEl with
    | none => st
    | some href =>
      match resolveHref st.1 href with
      | none => st
      | some target =>
        let r := cloneFresh target st.2
        let clone := copyUseAttrs useEl.attrs r.1
        (replaceNode useId clone st.1, r.2)

/-- Embeds `flattenSVG` from `src/util/svg.ts`: snapshot all `use`
references, resolve each against the mutating document, then drop the
first `defs` container. -/
def flattenSVG (root : XNode) : XNode :=
  let uses := queryAll "use" root
  let st := uses.foldl flattenStep (root, maxId root + 1)
  removeFirstDefs st.1

/-- The C4 counterexample document: a `use` whose target subtree itself
contains a `use` (`<use href="#a"/> <g id="a"><use href="#b"/></g>
<rect id="b"/>`). -/
def flattenCounterexampleDoc : XNode :=
  .mk 0 "svg" []
    [.mk 1 "use" [("href", .str "#a")] [],
     .mk 2 "g" [("id", .str "a")]
       [.mk 3 "use" [("href", .str "#b")] []],
     .mk 4 "rect" [("id", .str "b")] []]

/-! ### The export path (C1) -/

/-- The operations `bundle` and `download` invoke on the copied document. -/
inductive ExportStep where
  | createInlineStyledSvg
  | embedMarkers
  | flattenSVG
  | saveSVG
deriving DecidableEq, BEq, Repr

/-- The body of `bundle` (svg.ts): inline styles, embed markers, flatten,
serialize. -/
def bundleSteps : List ExportStep :=
  [ExportStep.createInlineStyledSvg, ExportStep.embedMarkers,
   ExportStep.flattenSVG]

/-- The body of `download` (svg.ts): the same pipeline followed by the
file save. -/
def downloadSteps : List ExportStep :=
  [ExportStep.createInlineStyledSvg, ExportStep.embedMarkers,
   ExportStep.flattenSVG, ExportStep.saveSVG]

/-! ### Marker embedding (`embedMarkers`, `processMarker`)

The browser supplies trigonometry, live path-length geometry
(`getTotalLength`, `getPointAtLength`) and IEEE number-to-string
formatting; these are passed in as an explicit oracle.  Everything else —
attribute parsing, the `d`-string surgery, snapshotting, cloning,
appending — is embedded directly. -/

/-- The value of a decimal digit character. -/
def digitVal (c : Char) : Nat := c.toNat - 48

/-- Value of a digit run. -/
def digitsVal (cs : List Char) : Nat :=
  cs.foldl (fun acc c => acc * 10 + digitVal c) 0

/-- `\d+\.?\d*` as a rational (integer part, optional fraction). -/
def parseUnsignedQ (cs : List Char) : Option ℚ :=
  let ip := cs.takeWhile Char.isDigit
  let rest := cs.dropWhile Char.isDigit
  match ip, rest with
  | [], '.' :: r2 =>
    let fp := r2.takeWhile Char.isDigit
    if fp = [] then none
    else some ((digitsVal fp : ℚ) / (10 : ℚ) ^ fp.length)
  | [], _ => none
  | _, '.' :: r2 =>
    let fp := r2.takeWhile Char.isDigit
    some ((digitsVal ip : ℚ) + (digitsVal fp : ℚ) / (10 : ℚ) ^ fp.length)
  | _, _ => some (digitsVal ip : ℚ)

/-- JavaScript `parseFloat` on a plain decimal string (exponent notation
and leading whitespace do not occur in the modelled inputs); an unparsable
prefix gives `NaN`, trailing garbage is ignored. -/
def parseFloatStr (s : String) : JNum :=
  match s.data with
  | '-' :: rest =>
    match parseUnsignedQ rest with
    | some q => JNum.fin (-q)
    | none => JNum.nan
  | '+' :: rest =>
    match parseUnsignedQ rest with
    | some q => JNum.fin q
    | none => JNum.nan
  | cs =>
    match parseUnsignedQ cs with
    | some q => JNum.fin q
    | none => JNum.nan

/-- `parseFloat(el.getAttribute(name) || "0")`: a missing or empty
attribute falls back to the string `"0"`. -/
def parseFloatOrZero : Option AttrV → JNum
  | none => JNum.fin 0
  | some (.str s) => if s = "" then JNum.fin 0 else parseFloatStr s
  | some (.num q) => q
  | some (.tfm _ _ _ _) => JNum.nan

/-- `parseFloat(el.getAttribute(name))` without a fallback:
`parseFloat(null)` is `NaN`. -/
def parseFloatAttr : Option AttrV → JNum
  | none => JNum.nan
  | some (.str s) => parseFloatStr s
  | some (.num q) => q
  | some (.tfm _ _ _ _) => JNum.nan

/-- The live-renderer capabilities `embedMarkers` uses: trigonometry and π
(`Math`), path geometry (`getTotalLength` / `getPointAtLength`, which
depend on the rendered path), and number-to-string formatting for the
rewritten `d` strings (IEEE double formatting, outside the exact-rational
model). -/
structure DomOracle where
  atan2 : JNum → JNum → JNum
  cos : JNum → JNum
  sin : JNum → JNum
  pi : JNum
  getTotalLength : XNode → JNum
  getPointAtLength : XNode → JNum → JNum × JNum
  fmt : JNum → String

/-- A definite choice of oracle for concrete witnesses. -/
def trivialOracle : DomOracle where
  atan2 := fun _ _ => JNum.fin 0
  cos := fun _ => JNum.fin 1
  sin := fun _ => JNum.fin 0
  pi := JNum.fin 3
  getTotalLength := fun _ => JNum.fin 0
  getPointAtLength := fun _ _ => (JNum.fin 0, JNum.fin 0)
  fmt := fun _ => "0"

/-- The DOM string of an attribute value (numeric values through the
oracle's formatter, the transform template through its source shape). -/
def attrToStr (fmt : JNum → String) : AttrV → String
  | .str s => s
  | .num q => fmt q
  | .tfm a b c d =>
    "translate(" ++ fmt a ++ "," ++ fmt b ++ ") rotate(" ++ fmt c ++
      ") scale(" ++ fmt d ++ ")"

/-- `markerUrl.replace(/^url\(#/, '').replace(/\)$/, '')`. -/
def stripUrlId (s : String) : String :=
  let l1 :=
    match s.data with
    | 'u' :: 'r' :: 'l' :: '(' :: '#' :: rest => rest
    | l => l
  if l1.getLast? = some ')' then String.mk l1.dropLast else String.mk l1

/-- A delimiter of the path-data split `/[ ,MLCZz]/`. -/
def isDelim (c : Char) : Bool :=
  c = ' ' || c = ',' || c = 'M' || c = 'L' || c = 'C' || c = 'Z' || c = 'z'

/-- `d.split(/[ ,MLCZz]/).filter(Boolean)`: maximal delimiter-free runs. -/
def splitDelimsAux (cur : List Char) : List Char → List String
  | [] => if cur = [] then [] else [String.mk cur.reverse]
  | c :: rest =>
    if isDelim c then
      if cur = [] then splitDelimsAux [] rest
      else String.mk cur.reverse :: splitDelimsAux [] rest
    else splitDelimsAux (c :: cur) rest

/-- Split a path-data string on the delimiter class, dropping empties. -/
def splitDelims (s : String) : List String := splitDelimsAux [] s.data

/-- Consume `\d+\.?\d*`: the consumed length and the remainder. -/
def matchNumPart (cs : List Char) : Option (Nat × List Char) :=
  let ds := cs.takeWhile Char.isDigit
  if ds = [] then none
  else
    let r1 := cs.dropWhile Char.isDigit
    match r1 with
    | '.' :: r2 =>
      let ds2 := r2.takeWhile Char.isDigit
      some (ds.length + 1 + ds2.length, r2.dropWhile Char.isDigit)
    | _ => some (ds.length, r1)

/-- Length of a match of `/M\s?\d+\.?\d*,\s?\d+\.?\d*/` at the head of
the list, if any. -/
def matchMCoordLen (cs : List Char) : Option Nat :=
  match cs with
  | 'M' :: r0 =>
    let ws1r :=
      match r0 with
      | c :: r => if c.isWhitespace then (1, r) else (0, r0)
      | [] => (0, ([] : List Char))
    match matchNumPart ws1r.2 with
    | none => none
    | some (n1, r2) =>
      match r2 with
      | ',' :: r3 =>
        let ws2r :=
          match r3 with
          | c :: r => if c.isWhitespace then (1, r) else (0, r3)
          | [] => (0, ([] : List Char))
        match matchNumPart ws2r.2 with
        | none => none
        | some (n2, _) => some (1 + ws1r.1 + n1 + 1 + ws2r.1 + n2)
      | _ => none
  | _ => none

/-- `String.prototype.replace` with the `M`-coordinate regex: replace the
first match, scanning left to right. -/
def replaceFirstM (repl : List Char) : List Char → List Char
  | [] => []
  | c :: rest =>
    match matchMCoordLen (c :: rest) with
    | some n => repl ++ (c :: rest).drop n
    | none => c :: replaceFirstM repl rest

mutual

/-- No node of the subtree carries a `marker-start` or `marker-end`
attribute. -/
def markerFree : XNode → Bool
  | .mk _ _ a ch =>
    (getAttrList "marker-end" a).isNone &&
    (getAttrList "marker-start" a).isNone && markerFreeList ch

/-- Forest version of `markerFree`. -/
def markerFreeList : List XNode → Bool
  | [] => true
  | c :: cs => markerFree c && markerFreeList cs

end

mutual

/-- Mutate the attached node with the given identity in place (JavaScript
mutates through the held element reference). -/
def mapNode (k : Nat) (f : XNode → XNode) : XNode → XNode
  | .mk i t a ch => .mk i t a (mapNodeList k f ch)

/-- `mapNode` over a sibling list. -/
def mapNodeList (k : Nat) (f : XNode → XNode) : List XNode → List XNode
  | [] => []
  | c :: cs =>
    if c.nid = k then f c :: cs
    else mapNode k f c :: mapNodeList k f cs

end

/-- `svgElement.appendChild`. -/
def appendChild : XNode → XNode → XNode
  | .mk i t a ch, c => .mk i t a (ch ++ [c])

mutual

/-- `querySelectorAll('line[pos], path[pos]')`: identities of the marked
line and path descendants, in document order. -/
def queryMarked (pos : String) : XNode → List Nat
  | .mk _ _ _ ch => queryMarkedList pos ch

/-- Forest version of `queryMarked`. -/
def queryMarkedList (pos : String) : List XNode → List Nat
  | [] => []
  | c :: cs =>
    (if (c.tag = "line" ∨ c.tag = "path") ∧ (c.getAttr pos).isSome
     then [c.nid] else []) ++
    queryMarked pos c ++ queryMarkedList pos cs

end

/-- Embeds the `trimLine` closure of `embedMarkers`: shorten one end of the
line by `trimPixels` along its own direction. -/
def trimLine (O : DomOracle) (trim : JNum) (el : XNode) (isEnd : Bool) :
    XNode :=
  let x1 := parseFloatOrZero (el.getAttr "x1")
  let y1 := parseFloatOrZero (el.getAttr "y1")
  let x2 := parseFloatOrZero (el.getAttr "x2")
  let y2 := parseFloatOrZero (el.getAttr "y2")
  let angle := O.atan2 (JNum.jsub y2 y1) (JNum.jsub x2 x1)
  if isEnd then
    (el.setAttr "x2"
        (.num (JNum.jsub x2 (JNum.jmul trim (O.cos angle))))).setAttr "y2"
      (.num (JNum.jsub y2 (JNum.jmul trim (O.sin angle))))
  else
    (el.setAttr "x1"
        (.num (JNum.jadd x1 (JNum.jmul trim (O.cos angle))))).setAttr "y1"
      (.num (JNum.jadd y1 (JNum.jmul trim (O.sin angle))))

/-- Embeds the `trimPath` closure of `embedMarkers`: rewrite the path's
`d` string around the live-measured new endpoint.  A missing `d`
attribute makes the source throw (`null.split`), hence `none`. -/
def trimPath (O : DomOracle) (trim : JNum) (el : XNode) (isEnd : Bool) :
    Option XNode :=
  let totalLength := O.getTotalLength el
  match el.getAttr "d" with
  | none => none
  | some dv =>
    let d := attrToStr O.fmt dv
    if isEnd then
      let p := O.getPointAtLength el (JNum.jsub totalLength trim)
      some (el.setAttr "d"
        (.str (String.mk (d.data.takeWhile (fun c => ¬(c = 'L'))) ++ "L " ++
          O.fmt p.1 ++ "," ++ O.fmt p.2)))
    else
      let p := O.getPointAtLength el trim
      some (el.setAttr "d"
        (.str (String.mk (replaceFirstM
          ("M ".data ++ (O.fmt p.1).data ++ [','] ++ (O.fmt p.2).data)
          d.data))))

/-- Embeds `processMarker` from `src/util/svg.ts`: one snapshot element and
one marker position.  The state is (document, next fresh identity);
`none` models the `TypeError` thrown when the marker reference does not
resolve (`marker.firstChild` on `null`), when the marker is empty, or when
a path has no `d` attribute. -/
def processMarker (O : DomOracle) (trim : JNum) (pos : String)
    (st : XNode × Nat) (elId : Nat) : Option (XNode × Nat) :=
  match findNode elId st.1 with
  | none => some st
  | some el =>
    match el.getAttr pos with
    | none => some st
    | some mv =>
      let ms := attrToStr O.fmt mv
      if ms = "" then some st
      else
        let markerId := stripUrlId ms
        let marker? := findById markerId st.1
        let cont := fun (x y angle : JNum) (root1 : XNode) =>
          match marker? with
          | none => none
          | some marker =>
            match marker.children with
            | [] => none
            | content :: _ =>
              let r := cloneFresh content st.2
              let refX := parseFloatAttr (marker.getAttr "refX")
              let refY := parseFloatAttr (marker.getAttr "refY")
              let s : JNum := JNum.fin (3 / 2)
              let angle' :=
                if pos = "marker-start" then JNum.jadd angle O.pi else angle
              let adjX :=
                JNum.jadd
                  (JNum.jsub x (JNum.jmul (JNum.jmul refX s) (O.cos angle')))
                  (JNum.jmul (JNum.jmul refY s) (O.sin angle'))
              let adjY :=
                JNum.jsub
                  (JNum.jsub y (JNum.jmul (JNum.jmul refX s) (O.sin angle')))
                  (JNum.jmul (JNum.jmul refY s) (O.cos angle'))
              let clone := r.1.setAttr "transform"
                (.tfm adjX adjY
                  (JNum.jmul angle' (JNum.jdiv (JNum.fin 180) O.pi)) s)
              let root2 := appendChild root1 clone
              let root3 := mapNode elId (fun e => e.removeAttr pos) root2
              some (root3, r.2)
        if el.tag = "line" then
          if pos = "marker-end" then
            let x := parseFloatOrZero (el.getAttr "x2")
            let y := parseFloatOrZero (el.getAttr "y2")
            let x1 := parseFloatOrZero (el.getAttr "x1")
            let y1 := parseFloatOrZero (el.getAttr "y1")
            let angle := O.atan2 (JNum.jsub y y1) (JNum.jsub x x1)
            cont x y angle
              (mapNode elId (fun e => trimLine O trim e true) st.1)
          else
            let x := parseFloatOrZero (el.getAttr "x1")
            let y := parseFloatOrZero (el.getAttr "y1")
            let x2 := parseFloatOrZero (el.getAttr "x2")
            let y2 := parseFloatOrZero (el.getAttr "y2")
            let angle := O.atan2 (JNum.jsub y2 y) (JNum.jsub x2 x)
            cont x y angle
              (mapNode elId (fun e => trimLine O trim e false) st.1)
        else if el.tag = "path" then
          let d :=
            match el.getAttr "d" with
            | none => ""
            | some v => attrToStr O.fmt v
          let parts := splitDelims d
          let coords :=
            if pos = "marker-end" then parts.drop (parts.length - 2)
            else parts.take 2
          let xy :=
            match coords with
            | [a, b] => (parseFloatStr a, parseFloatStr b)
            | _ => (JNum.nan, JNum.nan)
          match trimPath O trim el (pos = "marker-end") with
          | none => none
          | some el' =>
            cont xy.1 xy.2 (JNum.fin 0)
              (mapNode elId (fun _ => el') st.1)
        else some st

/-- Embeds `embedMarkers` from `src/util/svg.ts`: both snapshots are taken
first, then every end-marked element is processed, then every start-marked
element. -/
def embedMarkers (O : DomOracle) (root : XNode)
    (trim : JNum := JNum.fin 4) : Option XNode := do
  let endIds := queryMarked "marker-end" root
  let startIds := queryMarked "marker-start" root
  let st1 ← endIds.foldlM (processMarker O trim "marker-end")
    (root, maxId root + 1)
  let st2 ← startIds.foldlM (processMarker O trim "marker-start") st1
  pure st2.1

mutual

/-- Whether some node of the subtree carries the given model identity. -/
def hasNid (k : Nat) : XNode → Bool
  | .mk i _ _ ch => (i == k) || hasNidList k ch

/-- Forest version of `hasNid`. -/
def hasNidList (k : Nat) : List XNode → Bool
  | [] => false
  | c :: cs => hasNid k c || hasNidList k cs

end

/-- The C6 counterexample document: the marker reference sits on a
`circle`, which the selector `'line[marker-end], path[marker-end]'` never
returns, so embedding leaves it untouched. -/
def embedCounterexampleDoc : XNode :=
  .mk 0 "svg" []
    [.mk 1 "circle" [("marker-end", .str "url(#m)")] [],
     .mk 2 "defs" []
       [.mk 3 "marker" [("id", .str "m")]
         [.mk 4 "path" [("d", .str "M 0,0 L 1,1")] []]]]

/-- A document with one line carrying both marker references to a
`defs`-hosted marker with content `content` and reference point
`(rX, rY)`. -/
def oneLineDoc (content : XNode) (rX rY x1 y1 x2 y2 : JNum) : XNode :=
  .mk 0 "svg" []
    [.mk 1 "defs" []
      [.mk 2 "marker"
        [("id", .str "arrow"), ("refX", .num rX), ("refY", .num rY)]
        [content]],
     .mk 4 "line"
       [("x1", .num x1), ("y1", .num y1), ("x2", .num x2), ("y2", .num y2),
        ("marker-end", .str "url(#arrow)"),
        ("marker-start", .str "url(#arrow)")] []]

/-- The exact document `embedMarkers` produces on `oneLineDoc`: the line is
trimmed at both ends (the end first, the start anchor angle computed
against the already-trimmed end), both marker attributes are removed, and
two synthetic arrowhead glyphs — fresh-identity clones of the marker
content, positioned by the marker reference point and rotated to the
respective endpoint angles (the start angle flipped by π) — are appended
to the root, end clone first. -/
def embedOneLineExpected (O : DomOracle) (trim : JNum) (content : XNode)
    (rX rY x1 y1 x2 y2 : JNum) : XNode :=
  let angleE := O.atan2 (JNum.jsub y2 y1) (JNum.jsub x2 x1)
  let x2e := JNum.jsub x2 (JNum.jmul trim (O.cos angleE))
  let y2e := JNum.jsub y2 (JNum.jmul trim (O.sin angleE))
  let angleS := O.atan2 (JNum.jsub y2e y1) (JNum.jsub x2e x1)
  let x1s := JNum.jadd x1 (JNum.jmul trim (O.cos angleS))
  let y1s := JNum.jadd y1 (JNum.jmul trim (O.sin angleS))
  let s : JNum := JNum.fin (3 / 2)
  let N := maxId (oneLineDoc content rX rY x1 y1 x2 y2) + 1
  let r1 := cloneFresh content N
  let clone1 := r1.1.setAttr "transform"
    (.tfm
      (JNum.jadd (JNum.jsub x2 (JNum.jmul (JNum.jmul rX s) (O.cos angleE)))
        (JNum.jmul (JNum.jmul rY s) (O.sin angleE)))
      (JNum.jsub (JNum.jsub y2 (JNum.jmul (JNum.jmul rX s) (O.sin angleE)))
        (JNum.jmul (JNum.jmul rY s) (O.cos angleE)))
      (JNum.jmul angleE (JNum.jdiv (JNum.fin 180) O.pi)) s)
  let angleS' := JNum.jadd angleS O.pi
  let r2 := cloneFresh content r1.2
  let clone2 := r2.1.setAttr "transform"
    (.tfm
      (JNum.jadd (JNum.jsub x1 (JNum.jmul (JNum.jmul rX s) (O.cos angleS')))
        (JNum.jmul (JNum.jmul rY s) (O.sin angleS')))
      (JNum.jsub (JNum.jsub y1 (JNum.jmul (JNum.jmul rX s) (O.sin angleS')))
        (JNum.jmul (JNum.jmul rY s) (O.cos angleS')))
      (JNum.jmul angleS' (JNum.jdiv (JNum.fin 180) O.pi)) s)
  .mk 0 "svg" []
    [.mk 1 "defs" []
      [.mk 2 "marker"
        [("id", .str "arrow"), ("refX", .num rX), ("refY", .num rY)]
        [content]],
     .mk 4 "line"
       [("x1", .num x1s), ("y1", .num y1s),
        ("x2", .num x2e), ("y2", .num y2e)] [],
     clone1, clone2]

mutual

/-- Number of element nodes in a document subtree. -/
def xsize : XNode → Nat
  | .mk _ _ _ ch => 1 + xsizeList ch

/-- Forest version of `xsize`. -/
def xsizeList : List XNode → Nat
  | [] => 0
  | c :: cs => xsize c + xsizeList cs

end

mutual

/-- The model identities of a subtree, in document order. -/
def listNids : XNode → List Nat
  | .mk i _ _ ch => i :: listNidsList ch

/-- Forest version of `listNids`. -/
def listNidsList : List XNode → List Nat
  | [] => []
  | c :: cs => listNids c ++ listNidsList cs

end

mutual

/-- The identities of all nodes of a subtree (itself included) carrying the
attribute, in document order — unlike `queryMarked`, with no tag filter. -/
def attrMarked (pos : String) : XNode → List Nat
  | .mk i _ a ch =>
    (if (getAttrList pos a).isSome then [i] else []) ++ attrMarkedList pos ch

/-- Forest version of `attrMarked`. -/
def attrMarkedList (pos : String) : List XNode → List Nat
  | [] => []
  | c :: cs => attrMarked pos c ++ attrMarkedList pos cs

end

/-- The marked element with identity `k` is a childless `line` whose
`url(#…)` reference resolves to a marker with marker-free subtree and
nonempty content that does not contain the line itself. -/
def lineLeafGood (pos : String) (root : XNode) (k : Nat) : Prop :=
  ∃ el u m, findNode k root = some el ∧ el.tag = "line" ∧ el.children = [] ∧
    el.getAttr pos = some (AttrV.str u) ∧ u ≠ "" ∧
    findById (stripUrlId u) root = some m ∧ markerFree m = true ∧
    m.children ≠ [] ∧ hasNid k m = false

/-- A document `embedMarkers` handles in full: distinct node identities;
every node carrying a marker-reference attribute is one of the marked
line/path descendants the snapshots select (so in particular the root
carries none and no other tag carries one); and every snapshotted element
is a good marked line. -/
def GoodMarkedDoc (root : XNode) : Prop :=
  (listNids root).Nodup ∧
  attrMarked "marker-end" root = queryMarked "marker-end" root ∧
  attrMarked "marker-start" root = queryMarked "marker-start" root ∧
  (∀ k ∈ queryMarked "marker-end" root, lineLeafGood "marker-end" root k) ∧
  (∀ k ∈ queryMarked "marker-start" root, lineLeafGood "marker-start" root k)

/-- Concrete witness marker content: a small path glyph. -/
def witnessContent : XNode :=
  XNode.mk 9 "path" [("d", AttrV.str "M 0,0 L 1,1")] []

/-- Concrete witness document: one line from `(0,0)` to `(10,0)` with both
endpoints referencing the `defs`-hosted arrow marker. -/
def witnessDoc : XNode :=
  oneLineDoc witnessContent (JNum.fin 5) (JNum.fin 0) (JNum.fin 0)
    (JNum.fin 0) (JNum.fin 10) (JNum.fin 0)

/-! ## Theorems -/

namespace JNum

@[simp] theorem jadd_fin (a b : ℚ) : jadd (fin a) (fin b) = fin (a + b) := rfl

@[simp] theorem jsub_fin (a b : ℚ) : jsub (fin a) (fin b) = fin (a - b) := by
  simp [jsub, jadd, jneg, sub_eq_add_neg]

@[simp] theorem jmul_fin (a b : ℚ) : jmul (fin a) (fin b) = fin (a * b) := rfl

theorem jdiv_fin (a b : ℚ) (hb : b ≠ 0) : jdiv (fin a) (fin b) = fin (a / b) := by
  simp [jdiv, hb]

theorem jdiv_zero_pos (a : ℚ) (ha : 0 < a) : jdiv (fin a) (fin 0) = inf := by
  simp [jdiv, ha, ha.ne']

theorem jdiv_zero_neg (a : ℚ) (ha : a < 0) : jdiv (fin a) (fin 0) = ninf := by
  simp [jdiv, ha.ne, not_lt.mpr ha.le]

@[simp] theorem isFinite_fin (a : ℚ) : isFinite (fin a) = true := rfl

@[simp] theorem isFinite_inf : isFinite inf = false := rfl

@[simp] theorem isFinite_ninf : isFinite ninf = false := rfl

theorem isFinite_jdiv_zero (a : ℚ) (ha : a ≠ 0) :
    isFinite (jdiv (fin a) (fin 0)) = false := by
  rcases lt_trichotomy a 0 with h | h | h
  · rw [jdiv_zero_neg a h]; rfl
  · exact absurd h ha
  · rw [jdiv_zero_pos a h]; rfl

end JNum

section scratch

open JNum

example : JNum.jdiv (JNum.fin 1) (JNum.fin 0) = JNum.inf := by norm_num [JNum.jdiv]

example :
    findLineEndpoints (fin 2) (fin 0) (fin (-3)) (fin (-4)) (fin 10) (fin 8) =
      [(fin (-3), fin 0), (fin 7, fin 0)] := by
  norm_num [findLineEndpoints, inRange, jdiv, jmul, jadd, jsub, jneg, jle,
    sortJS, insertSorted, ptLe, ptCmp]

example :
    findLineEndpoints (fin 2) (fin 0) (fin (-3)) (fin 5) (fin 10) (fin 8) =
      [(fin (-3), fin 0), (fin 7, fin 0)] := by
  norm_num [findLineEndpoints, inRange, jdiv, jmul, jadd, jsub, jneg, jle,
    sortJS, insertSorted, ptLe, ptCmp]

example :
    findLineEndpoints (fin (-1)) (fin 0) (fin 2) (fin (-4)) (fin (-5)) (fin 8) =
      [(fin (-3), fin 0), (fin 2, fin 0)] := by
  norm_num [findLineEndpoints, inRange, jdiv, jmul, jadd, jsub, jneg, jle,
    sortJS, insertSorted, ptLe, ptCmp]

example :
    factorial 3 = Except.error "TypeError: Cannot read properties of undefined" := by
  norm_num [factorial, factorialJS]

example :
    pointWhereTwoLinesIntersect (fin 0, fin 0) (fin 2, fin 2)
      (fin 0, fin 2) (fin 2, fin 0) = (fin 1, fin 1) := by
  norm_num [pointWhereTwoLinesIntersect, jdiv, jmul, jadd, jsub, jneg,
    JNum.isFinite]

example :
    pointWhereTwoLinesIntersect (fin 1, fin 0) (fin 1, fin 5)
      (fin 0, fin 0) (fin 2, fin 2) = (fin 1, fin 1) := by
  norm_num [pointWhereTwoLinesIntersect, jdiv, jmul, jadd, jsub, jneg,
    JNum.isFinite]

end scratch

/-- C10: `factorial` returns `1` for every input below `1`; for every input
at least `1` the recursive call goes through the module-scope `this`
binding, which is `undefined` in a plain strict-mode call, so the call
throws a `TypeError` instead of returning `n!`. -/
theorem factorial_below_one_ok_above_one_throws (n : ℚ) :
    (n < 1 → factorial n = Except.ok 1) ∧
    (1 ≤ n →
      factorial n =
        Except.error "TypeError: Cannot read properties of undefined") := by
  constructor
  · intro h
    simp [factorial, factorialJS, h]
  · intro h
    simp [factorial, factorialJS, not_lt.mpr h]

/-- Witness for C10 at the concrete inputs `0` and `5`. -/
theorem factorial_below_one_ok_above_one_throws_witness :
    factorial 0 = Except.ok 1 ∧
    factorial 5 =
      Except.error "TypeError: Cannot read properties of undefined" :=
  ⟨(factorial_below_one_ok_above_one_throws 0).1 (by norm_num),
   (factorial_below_one_ok_above_one_throws 5).2 (by norm_num)⟩

open JNum in
/-- C8: for `p1 ≠ p2` and `p3 ≠ p4` defining non-parallel lines (their
direction cross-product is nonzero), `pointWhereTwoLinesIntersect` returns a
finite point collinear with both point pairs — also when exactly one of the
lines is vertical.  Exact-rational model of the JavaScript arithmetic. -/
theorem pointWhereTwoLinesIntersect_on_both_lines
    (x1 y1 x2 y2 x3 y3 x4 y4 : ℚ)
    (h12 : (x1, y1) ≠ (x2, y2)) (h34 : (x3, y3) ≠ (x4, y4))
    (hnp : (y2 - y1) * (x4 - x3) ≠ (y4 - y3) * (x2 - x1)) :
    ∃ x y : ℚ,
      pointWhereTwoLinesIntersect (fin x1, fin y1) (fin x2, fin y2)
        (fin x3, fin y3) (fin x4, fin y4) = (fin x, fin y) ∧
      collinearQ (x1, y1) (x2, y2) (x, y) ∧
      collinearQ (x3, y3) (x4, y4) (x, y) := by
  by_cases hdx1 : x2 - x1 = 0
  · by_cases hdx2 : x4 - x3 = 0
    · exfalso
      apply hnp
      rw [hdx1, hdx2]
      ring
    · -- first line vertical, second not
      have hx21 : x2 = x1 := by linarith
      have hdy1 : y2 - y1 ≠ 0 := by
        intro h
        have hy : y1 = y2 := by linarith
        exact h12 (by simp [Prod.mk.injEq, hx21.symm, hy])
      refine ⟨x1, y3 + (y4 - y3) / (x4 - x3) * (x1 - x3), ?_, ?_, ?_⟩
      · simp only [pointWhereTwoLinesIntersect, jsub_fin, jadd_fin, jmul_fin]
        rw [hdx1, isFinite_jdiv_zero _ hdy1, jdiv_fin _ _ hdx2]
        simp
      · unfold collinearQ
        simp only
        rw [hx21]
        ring
      · unfold collinearQ
        simp only
        field_simp
        ring
  · by_cases hdx2 : x4 - x3 = 0
    · -- second line vertical, first not
      have hx43 : x4 = x3 := by linarith
      have hdy2 : y4 - y3 ≠ 0 := by
        intro h
        have hy : y3 = y4 := by linarith
        exact h34 (by simp [Prod.mk.injEq, hx43.symm, hy])
      refine ⟨x3, y1 + (y2 - y1) / (x2 - x1) * (x3 - x1), ?_, ?_, ?_⟩
      · simp only [pointWhereTwoLinesIntersect, jsub_fin, jadd_fin, jmul_fin]
        rw [hdx2, jdiv_fin _ _ hdx1, isFinite_jdiv_zero _ hdy2]
        simp
      · unfold collinearQ
        simp only
        field_simp
        ring
      · unfold collinearQ
        simp only
        rw [hx43]
        ring
    · -- neither line vertical
      have hss : (y2 - y1) / (x2 - x1) - (y4 - y3) / (x4 - x3) ≠ 0 := by
        intro h
        apply hnp
        field_simp at h
        linarith
      set s1 : ℚ := (y2 - y1) / (x2 - x1) with hs1
      set s2 : ℚ := (y4 - y3) / (x4 - x3) with hs2
      set b1 : ℚ := y2 - x2 * s1 with hb1
      set b2 : ℚ := y4 - x4 * s2 with hb2
      set xI : ℚ := (b2 - b1) / (s1 - s2) with hxI
      refine ⟨xI, y1 + s1 * (xI - x1), ?_, ?_, ?_⟩
      · simp only [pointWhereTwoLinesIntersect, jsub_fin, jadd_fin, jmul_fin]
        rw [jdiv_fin _ _ hdx1, jdiv_fin _ _ hdx2]
        rw [← hs1, ← hs2]
        simp only [jsub_fin, jmul_fin, isFinite_fin]
        rw [jdiv_fin _ _ (by rw [hs1, hs2] at hss ⊢; exact hss)]
        simp [hb1, hb2, hxI]
      · unfold collinearQ
        simp only
        rw [hs1]
        field_simp
        ring
      · unfold collinearQ
        simp only
        have hy : y1 + s1 * (xI - x1) = s2 * xI + b2 := by
          have hx' : xI * (s1 - s2) = b2 - b1 := by
            rw [hxI]
            field_simp
          have hb1' : b1 = y1 - x1 * s1 := by
            rw [hb1, hs1]
            field_simp
            ring
          have : y1 + s1 * (xI - x1) = s1 * xI + b1 := by rw [hb1']; ring
          rw [this]
          linarith [hx']
        rw [hy, hb2, hs2]
        field_simp
        ring

open JNum in
/-- Witness for C8: the diagonals of the unit-square scaled by two. -/
theorem pointWhereTwoLinesIntersect_on_both_lines_witness :
    ((0 : ℚ), (0 : ℚ)) ≠ ((2 : ℚ), (2 : ℚ)) ∧
    ((0 : ℚ), (2 : ℚ)) ≠ ((2 : ℚ), (0 : ℚ)) ∧
    ((2 : ℚ) - 0) * (2 - 0) ≠ ((0 : ℚ) - 2) * (2 - 0) ∧
    (∃ x y : ℚ,
      pointWhereTwoLinesIntersect (fin 0, fin 0) (fin 2, fin 2)
        (fin 0, fin 2) (fin 2, fin 0) = (fin x, fin y) ∧
      collinearQ (0, 0) (2, 2) (x, y) ∧
      collinearQ (0, 2) (2, 0) (x, y)) :=
  ⟨by norm_num [Prod.ext_iff], by norm_num [Prod.ext_iff], by norm_num,
   pointWhereTwoLinesIntersect_on_both_lines 0 0 2 2 0 2 2 0
     (by norm_num [Prod.ext_iff]) (by norm_num [Prod.ext_iff]) (by norm_num)⟩

open JNum in
/-- C7: for a horizontal direction (`y = 0`, `x ≠ 0`) and any rational
viewport, `findLineEndpoints` returns exactly the two points `(minX, 0)` and
`(minX + width, 0)` — in that order, except that the final sort swaps them
exactly when they land inside the viewport's vertical range (`minY ≤ 0 ≤
minY + height`, so the two vertical-edge hits are also pushed and the
four-point list is sorted) with a negative `width`. -/
theorem findLineEndpoints_horizontal
    (x minX minY width height : ℚ) (hx : x ≠ 0) :
    findLineEndpoints (fin x) (fin 0) (fin minX) (fin minY) (fin width)
        (fin height) =
      (if minY ≤ 0 ∧ 0 ≤ minY + height ∧ width < 0
       then [(fin (minX + width), fin 0), (fin minX, fin 0)]
       else [(fin minX, fin 0), (fin (minX + width), fin 0)]) := by
  have hdiv0 : jdiv (fin 0) (fin x) = fin 0 := by
    rw [jdiv_fin 0 x hx, zero_div]
  have hnf : ∀ a : ℚ, isFinite (jdiv (fin a) (fin 0)) = false := by
    intro a
    by_cases h : a = 0
    · subst h; simp [jdiv, isFinite]
    · exact isFinite_jdiv_zero a h
  have hbot : ∀ a lo hi : ℚ,
      inRange (fin lo) (jdiv (fin a) (fin 0)) (fin hi) = false := by
    intro a lo hi
    have h := hnf a
    cases hE : jdiv (fin a) (fin 0) with
    | fin q => rw [hE] at h; simp at h
    | inf => simp [inRange, jle]
    | ninf => simp [inRange, jle]
    | nan => simp [inRange, jle]
  have hval : ∀ lo v hi : ℚ,
      inRange (fin lo) (fin v) (fin hi) =
        (decide (lo ≤ v) && decide (v ≤ hi)) := by
    intro lo v hi
    simp [inRange, jle]
  by_cases hb : minY ≤ 0 ∧ 0 ≤ minY + height
  · obtain ⟨hb1, hb2⟩ := hb
    rcases lt_trichotomy width 0 with hw | hw | hw
    · rw [if_pos ⟨hb1, hb2, hw⟩]
      simp [findLineEndpoints, hx, hdiv0, hbot, hval, hb1, hb2, sortJS,
        insertSorted, ptLe, ptCmp, jle, add_sub_cancel_left,
        sub_add_cancel_left, neg_nonpos, hw.ne, hw.le, hw.not_le]
    · subst hw
      rw [if_neg (by rintro ⟨-, -, h⟩; exact absurd h (lt_irrefl 0))]
      simp [findLineEndpoints, hx, hdiv0, hbot, hval, hb1, hb2, sortJS,
        insertSorted, ptLe, ptCmp, jle]
    · rw [if_neg (by rintro ⟨-, -, h⟩; exact absurd h (not_lt.mpr hw.le))]
      simp [findLineEndpoints, hx, hdiv0, hbot, hval, hb1, hb2, sortJS,
        insertSorted, ptLe, ptCmp, jle, add_sub_cancel_left,
        sub_add_cancel_left, neg_nonpos, hw.ne', hw.le, not_le.mpr hw]
  · rw [not_and_or] at hb
    rw [if_neg (by
      rintro ⟨h1, h2, -⟩
      rcases hb with hb | hb
      · exact hb h1
      · exact hb h2)]
    rcases hb with hb | hb
    · simp [findLineEndpoints, hx, hdiv0, hbot, hval, hb]
    · simp [findLineEndpoints, hx, hdiv0, hbot, hval, hb]

open JNum in
/-- Witness for C7 at direction `(2, 0)` and viewport `(-3, -4, 10, 8)`. -/
theorem findLineEndpoints_horizontal_witness :
    (2 : ℚ) ≠ 0 ∧
    findLineEndpoints (fin 2) (fin 0) (fin (-3)) (fin (-4)) (fin 10)
        (fin 8) =
      (if (-4 : ℚ) ≤ 0 ∧ (0 : ℚ) ≤ -4 + 8 ∧ (10 : ℚ) < 0
       then [(fin ((-3) + 10), fin 0), (fin (-3), fin 0)]
       else [(fin (-3), fin 0), (fin ((-3) + 10), fin 0)]) :=
  ⟨by norm_num, findLineEndpoints_horizontal 2 (-3) (-4) 10 8 (by norm_num)⟩

/-! ### Structural matching (C2) -/

mutual

/-- `nodeMatches` agrees everywhere with the amended deep-match predicate
(the `data-c` comparison guarded by the TARGET node's attribute). -/
theorem nodeMatches_eq_amended :
    ∀ (a b : Elem), nodeMatches a b = amendedDeepMatch a b
  | .mk t1 m1 c1 f1 ch1, .mk t2 m2 c2 f2 ch2 => by
    simp only [nodeMatches, amendedDeepMatch,
      nodesMatch_eq_amendedList ch1 ch2]

/-- Forest version of `nodeMatches_eq_amended`. -/
theorem nodesMatch_eq_amendedList :
    ∀ (as bs : List Elem), nodesMatch as bs = amendedDeepMatchList as bs
  | [], [] => rfl
  | _ :: _, [] => rfl
  | [], _ :: _ => rfl
  | a :: as, b :: bs => by
    simp only [nodesMatch, amendedDeepMatchList, nodeMatches_eq_amended a b,
      nodesMatch_eq_amendedList as bs]

end

/-- C2 counterexample: a target node carrying no `data-c` attribute against
a candidate node that does carry one.  The source's `nodeMatches` skips the
glyph-identity comparison (its guard is the TARGET node's attribute) and
reports a match; the claim's predicate — which performs the comparison
exactly when the CANDIDATE carries the tag — rejects it. -/
theorem nodeMatches_dataC_guard_counterexample :
    nodeMatches (Elem.mk "g" (some "mi") none none [])
        (Elem.mk "g" (some "mi") (some "1D465") none []) = true ∧
    claimDeepMatch (Elem.mk "g" (some "mi") none none [])
        (Elem.mk "g" (some "mi") (some "1D465") none []) = false := by
  constructor
  · rfl
  · rfl

/-- C2 (amended): the deep-match predicate holds iff the structural-kind
tags (tag name and `data-mml-node`) are equal, the glyph-identity tags are
equal whenever the TARGET node specifies one (the comparison is performed
exactly when the target node carries a `data-c` attribute), and the
children match pairwise with equal count. -/
theorem nodeMatches_iff_amendedDeepMatch (a b : Elem) :
    nodeMatches a b = amendedDeepMatch a b :=
  nodeMatches_eq_amended a b

/-! ### Recoloring (C9, C3) -/

/-- C9: with zero structural matches, `setColorAll` raises nothing and
returns the rendered tree unchanged, while the indexed `setColor` raises
the lookup failure (for every requested index) and also leaves the tree
unchanged. -/
theorem setColorAll_zero_matches_no_failure (t sub : Elem) (color : String)
    (h : getMatchesByTex t sub = []) :
    setColorAll t sub color = t ∧
    ∀ index : Int,
      setColor t sub color index = (Except.error "Found no match", t) := by
  constructor
  · simp [setColorAll, h]
  · intro index
    simp [setColor, h]

/-- Witness for C9: a rendered `x` glyph queried for a `y` glyph. -/
theorem setColorAll_zero_matches_no_failure_witness :
    getMatchesByTex
        (Elem.mk "g" (some "math") none none
          [Elem.mk "g" (some "mi") (some "1D465") none []])
        (Elem.mk "g" (some "math") none none
          [Elem.mk "g" (some "mi") (some "1D466") none []]) = [] ∧
    setColorAll
        (Elem.mk "g" (some "math") none none
          [Elem.mk "g" (some "mi") (some "1D465") none []])
        (Elem.mk "g" (some "math") none none
          [Elem.mk "g" (some "mi") (some "1D466") none []]) "#ff0000" =
      Elem.mk "g" (some "math") none none
        [Elem.mk "g" (some "mi") (some "1D465") none []] ∧
    ∀ index : Int,
      setColor
          (Elem.mk "g" (some "math") none none
            [Elem.mk "g" (some "mi") (some "1D465") none []])
          (Elem.mk "g" (some "math") none none
            [Elem.mk "g" (some "mi") (some "1D466") none []]) "#ff0000"
          index =
        (Except.error "Found no match",
          Elem.mk "g" (some "math") none none
            [Elem.mk "g" (some "mi") (some "1D465") none []]) := by
  have h : getMatchesByTex
      (Elem.mk "g" (some "math") none none
        [Elem.mk "g" (some "mi") (some "1D465") none []])
      (Elem.mk "g" (some "math") none none
        [Elem.mk "g" (some "mi") (some "1D466") none []]) = [] := by rfl
  exact ⟨h,
    (setColorAll_zero_matches_no_failure _ _ "#ff0000" h).1,
    (setColorAll_zero_matches_no_failure _ _ "#ff0000" h).2⟩

mutual

/-- `setFillAt` changes exactly the `fill` of the node at the given
address and nothing else. -/
theorem nodeAt_setFillAt (color : String) :
    ∀ (t : Elem) (a b : List Nat),
      nodeAt (setFillAt color t a) b =
        if b = a then
          (nodeAt t b).map (fun d => (d.1, d.2.1, d.2.2.1, some color))
        else nodeAt t b
  | .mk tg m dc f ch, [], [] => by
      simp [setFillAt, nodeAt, getNode, ownData, Elem.tagName, Elem.mmlNode,
        Elem.dataC, Elem.fill]
  | .mk tg m dc f ch, [], i :: r => by
      simp [setFillAt, nodeAt, getNode]
  | .mk tg m dc f ch, i :: r, [] => by
      simp [setFillAt, nodeAt, getNode, ownData, Elem.tagName, Elem.mmlNode,
        Elem.dataC, Elem.fill]
  | .mk tg m dc f ch, i :: r, j :: r' => by
      simp only [setFillAt, nodeAt, getNode, List.cons.injEq]
      rw [nodeAtList_setFillAtList color ch i r j r']

/-- Forest version of `nodeAt_setFillAt`. -/
theorem nodeAtList_setFillAtList (color : String) :
    ∀ (cs : List Elem) (i : Nat) (r : List Nat) (j : Nat) (r' : List Nat),
      (getNodeList (setFillAtList color cs i r) j r').map ownData =
        if j = i ∧ r' = r then
          ((getNodeList cs j r').map ownData).map
            (fun d => (d.1, d.2.1, d.2.2.1, some color))
        else (getNodeList cs j r').map ownData
  | [], i, r, j, r' => by
      cases j <;> simp [setFillAtList, getNodeList]
  | c :: cs, 0, r, 0, r' => by
      simp only [setFillAtList, getNodeList, true_and]
      have h := nodeAt_setFillAt color c r r'
      simp only [nodeAt] at h
      exact h
  | c :: cs, 0, r, j + 1, r' => by
      simp [setFillAtList, getNodeList]
  | c :: cs, i + 1, r, 0, r' => by
      simp [setFillAtList, getNodeList]
  | c :: cs, i + 1, r, j + 1, r' => by
      simp only [setFillAtList, getNodeList, Nat.add_right_cancel_iff]
      rw [nodeAtList_setFillAtList color cs i r j r']

end

/-- `recolorMatch` sets `fill` at exactly the listed addresses. -/
theorem nodeAt_recolorMatch (color : String) :
    ∀ (addrs : List (List Nat)) (t : Elem) (b : List Nat),
      nodeAt (recolorMatch color t addrs) b =
        if b ∈ addrs then
          (nodeAt t b).map (fun d => (d.1, d.2.1, d.2.2.1, some color))
        else nodeAt t b
  | [], t, b => by simp [recolorMatch]
  | a :: as, t, b => by
      have hff : ((fun d => (d.1, d.2.1, d.2.2.1, some color)) ∘
            (fun d => (d.1, d.2.1, d.2.2.1, some color))) =
          (fun d : String × Option String × Option String × Option String =>
            (d.1, d.2.1, d.2.2.1, some color)) := by
        funext d
        rfl
      have hstep : recolorMatch color t (a :: as) =
          recolorMatch color (setFillAt color t a) as := by
        simp [recolorMatch]
      rw [hstep, nodeAt_recolorMatch color as (setFillAt color t a) b,
        nodeAt_setFillAt color t a b]
      by_cases hmem : b ∈ as
      · by_cases hba : b = a
        · simp [hmem, hba, Option.map_map, hff]
        · simp [hmem, hba]
      · by_cases hba : b = a
        · simp [hmem, hba, Option.map_map, hff]
        · simp [hmem, hba]

/-- C3: `setColor` raises the lookup failure on zero matches and the range
failure on an out-of-bounds index, leaving the rendered tree untouched in
both cases; on a valid index it returns normally and recolors exactly the
nodes of the match at that index (every node keeps its own fields except
that `fill` becomes the requested color precisely at the matched
addresses). -/
theorem setColor_failure_and_recolor_exact
    (t sub : Elem) (color : String) (index : Int) :
    (getMatchesByTex t sub = [] →
      setColor t sub color index = (Except.error "Found no match", t)) ∧
    (getMatchesByTex t sub ≠ [] →
      (index < 0 ∨ ((getMatchesByTex t sub).length : Int) ≤ index) →
      setColor t sub color index = (Except.error "Index is out of range", t)) ∧
    (0 ≤ index → index < ((getMatchesByTex t sub).length : Int) →
      (setColor t sub color index).1 = Except.ok () ∧
      ∀ b : List Nat,
        nodeAt (setColor t sub color index).2 b =
          if b ∈ (getMatchesByTex t sub).getD index.toNat [] then
            (nodeAt t b).map (fun d => (d.1, d.2.1, d.2.2.1, some color))
          else nodeAt t b) := by
  refine ⟨?_, ?_, ?_⟩
  · intro h
    simp [setColor, h]
  · intro hne hrange
    have hlen : (getMatchesByTex t sub).length ≠ 0 := by
      simpa [List.length_eq_zero] using hne
    simp [setColor, hlen, hrange]
  · intro h0 hlt
    have hlen : (getMatchesByTex t sub).length ≠ 0 := by
      intro h
      rw [h] at hlt
      simp at hlt
      omega
    have hrange : ¬(index < 0 ∨
        ((getMatchesByTex t sub).length : Int) ≤ index) := by
      push_neg
      exact ⟨h0, hlt⟩
    constructor
    · simp [setColor, hlen, hrange]
    · intro b
      have h2 : (setColor t sub color index).2 =
          recolorMatch color t
            ((getMatchesByTex t sub).getD index.toNat []) := by
        simp [setColor, hlen, hrange]
      rw [h2, nodeAt_recolorMatch]

/-- Witness for C3: recoloring the sole self-match of an `x` glyph at
index `0`. -/
theorem setColor_failure_and_recolor_exact_witness :
    (0 : Int) ≤ 0 ∧
    (0 : Int) <
      ((getMatchesByTex
          (Elem.mk "g" (some "math") none none
            [Elem.mk "g" (some "mi") (some "1D465") none []])
          (Elem.mk "g" (some "math") none none
            [Elem.mk "g" (some "mi") (some "1D465") none []])).length : Int) ∧
    (setColor
        (Elem.mk "g" (some "math") none none
          [Elem.mk "g" (some "mi") (some "1D465") none []])
        (Elem.mk "g" (some "math") none none
          [Elem.mk "g" (some "mi") (some "1D465") none []])
        "#ff0000" 0).1 = Except.ok () ∧
    nodeAt
        (setColor
          (Elem.mk "g" (some "math") none none
            [Elem.mk "g" (some "mi") (some "1D465") none []])
          (Elem.mk "g" (some "math") none none
            [Elem.mk "g" (some "mi") (some "1D465") none []])
          "#ff0000" 0).2 [0] =
      if [0] ∈ (getMatchesByTex
          (Elem.mk "g" (some "math") none none
            [Elem.mk "g" (some "mi") (some "1D465") none []])
          (Elem.mk "g" (some "math") none none
            [Elem.mk "g" (some "mi") (some "1D465") none []])).getD
            ((0 : Int)).toNat [] then
        (nodeAt
          (Elem.mk "g" (some "math") none none
            [Elem.mk "g" (some "mi") (some "1D465") none []]) [0]).map
          (fun d => (d.1, d.2.1, d.2.2.1, some "#ff0000"))
      else
        nodeAt
          (Elem.mk "g" (some "math") none none
            [Elem.mk "g" (some "mi") (some "1D465") none []]) [0] := by
  have hlt : (0 : Int) <
      ((getMatchesByTex
          (Elem.mk "g" (some "math") none none
            [Elem.mk "g" (some "mi") (some "1D465") none []])
          (Elem.mk "g" (some "math") none none
            [Elem.mk "g" (some "mi") (some "1D465") none []])).length : Int) := by
    have h : getMatchesByTex
        (Elem.mk "g" (some "math") none none
          [Elem.mk "g" (some "mi") (some "1D465") none []])
        (Elem.mk "g" (some "math") none none
          [Elem.mk "g" (some "mi") (some "1D465") none []]) = [[[0]]] := rfl
    rw [h]
    norm_num
  have hmain := setColor_failure_and_recolor_exact
    (Elem.mk "g" (some "math") none none
      [Elem.mk "g" (some "mi") (some "1D465") none []])
    (Elem.mk "g" (some "math") none none
      [Elem.mk "g" (some "mi") (some "1D465") none []]) "#ff0000" 0
  exact ⟨le_refl 0, hlt, (hmain.2.2 (le_refl 0) hlt).1,
    (hmain.2.2 (le_refl 0) hlt).2 [0]⟩

/-! ### Self-matching (C5) -/

mutual

/-- `nodeMatches` is reflexive. -/
theorem nodeMatches_refl : ∀ (e : Elem), nodeMatches e e = true
  | .mk t m c f ch => by
    simp only [nodeMatches, nodesMatch_refl ch, decide_True, Bool.and_true,
      Bool.true_and]
    cases c <;> simp

/-- `nodesMatch` is reflexive. -/
theorem nodesMatch_refl : ∀ (l : List Elem), nodesMatch l l = true
  | [] => rfl
  | a :: as => by
    simp only [nodesMatch, nodeMatches_refl a, nodesMatch_refl as,
      Bool.and_self]

end

mutual

/-- Deep-matching trees have the same number of nodes. -/
theorem nodeMatches_esize :
    ∀ (a b : Elem), nodeMatches a b = true → esize a = esize b
  | .mk t1 m1 c1 f1 ch1, .mk t2 m2 c2 f2 ch2 => by
    intro h
    simp only [nodeMatches, Bool.and_eq_true] at h
    simp only [esize, nodesMatch_esizeList ch1 ch2 h.2]

/-- Deep-matching forests have the same number of nodes. -/
theorem nodesMatch_esizeList :
    ∀ (as bs : List Elem), nodesMatch as bs = true →
      esizeList as = esizeList bs
  | [], [] => by intro _; rfl
  | _ :: _, [] => by intro h; simp [nodesMatch] at h
  | [], _ :: _ => by intro h; simp [nodesMatch] at h
  | a :: as, b :: bs => by
    intro h
    simp only [nodesMatch, Bool.and_eq_true] at h
    simp only [esizeList, nodeMatches_esize a b h.1,
      nodesMatch_esizeList as bs h.2]

end

/-- The sequential walk matches a list against itself. -/
theorem seqPairs_self : ∀ (l : List Elem), seqPairs l l = true
  | [] => rfl
  | a :: as => by
    simp only [seqPairs, nodeMatches_refl a, seqPairs_self as, Bool.and_self]

/-- A successful sequential walk consumes at least the candidate's size. -/
theorem seqPairs_esizeList :
    ∀ (sibs cs : List Elem), seqPairs sibs cs = true →
      esizeList cs ≤ esizeList sibs
  | _, [] => by intro _; simp [esizeList]
  | [], _ :: _ => by intro h; simp [seqPairs] at h
  | s :: ss, c :: cs => by
    intro h
    simp only [seqPairs, Bool.and_eq_true] at h
    have h1 := nodeMatches_esize s c h.1
    have h2 := seqPairs_esizeList ss cs h.2
    simp only [esizeList]
    omega

/-- Every tree has at least one node. -/
theorem esize_pos : ∀ (e : Elem), 1 ≤ esize e
  | .mk _ _ _ _ _ => by simp [esize]

/-- A forest is at least as large as any member. -/
theorem mem_esizeList :
    ∀ (cs : List Elem) (c : Elem), c ∈ cs → esize c ≤ esizeList cs
  | [], c => by intro h; simp at h
  | x :: xs, c => by
    intro h
    rcases List.mem_cons.mp h with h | h
    · subst h
      simp only [esizeList]
      omega
    · have := mem_esizeList xs c h
      simp only [esizeList]
      omega

/-- In a sibling run strictly smaller than the candidate root's children,
the level scan finds nothing. -/
theorem levelMatches_nil :
    ∀ (pre : List Nat) (sub : Elem) (i : Nat) (sibs : List Elem),
      esizeList sibs < esizeList sub.children →
      levelMatches pre sub i sibs = []
  | pre, sub, i, [] => by intro _; rfl
  | pre, sub, i, s :: rest => by
    intro h
    have hs : esize s ≤ esizeList (s :: rest) := by
      simp only [esizeList]
      omega
    have hdeep : nodeMatches s sub = false := by
      cases hnm : nodeMatches s sub
      · rfl
      · exfalso
        have hsz := nodeMatches_esize s sub hnm
        obtain ⟨t2, m2, c2, f2, ch2⟩ := sub
        simp only [esize] at hsz
        simp only [Elem.children] at h
        omega
    have hseq : seqPairs (s :: rest) sub.children = false := by
      cases hsp : seqPairs (s :: rest) sub.children
      · rfl
      · exfalso
        have := seqPairs_esizeList _ _ hsp
        omega
    have htail : levelMatches pre sub (i + 1) rest = [] := by
      apply levelMatches_nil
      simp only [esizeList] at h ⊢
      have := esize_pos s
      omega
    simp only [levelMatches, hdeep, hseq, htail]
    simp

mutual

/-- A proper subtree of the candidate (at most the size of the candidate
root's children) contributes no matches. -/
theorem traverseElem_nil :
    ∀ (pre : List Nat) (sub : Elem) (n : Elem),
      esize n ≤ esizeList sub.children →
      traverseElem pre sub n = []
  | pre, sub, .mk t m c f ch => by
    intro h
    have hch : esizeList ch < esizeList sub.children := by
      simp only [esize] at h
      omega
    simp only [traverseElem, levelMatches_nil pre sub 0 ch hch,
      traverseChildren_nil pre sub 0 ch (le_of_lt hch), List.append_nil]

/-- Forest version of `traverseElem_nil`. -/
theorem traverseChildren_nil :
    ∀ (pre : List Nat) (sub : Elem) (i : Nat) (cs : List Elem),
      esizeList cs ≤ esizeList sub.children →
      traverseChildren pre sub i cs = []
  | pre, sub, i, [] => by intro _; rfl
  | pre, sub, i, c :: rest => by
    intro h
    have hc : esize c ≤ esizeList sub.children := by
      simp only [esizeList] at h
      have := esize_pos c
      omega
    have hrest : esizeList rest ≤ esizeList sub.children := by
      simp only [esizeList] at h
      have := esize_pos c
      omega
    simp only [traverseChildren, traverseElem_nil (pre ++ [i]) sub c hc,
      traverseChildren_nil pre sub (i + 1) rest hrest, List.append_nil]

end

/-- C5: matching a rendered expression (root with at least one child)
against itself yields exactly one match, and that match is the complete
ordered run of the root's children. -/
theorem findSubtreeMatches_self_single_full_match (t : Elem)
    (h : t.children ≠ []) :
    findSubtreeMatches t t =
      [(List.range t.children.length).map (fun i => [i])] := by
  obtain ⟨tg, m, dc, f, ch⟩ := t
  cases ch with
  | nil => simp [Elem.children] at h
  | cons s rest =>
    have hchildren : (Elem.mk tg m dc f (s :: rest)).children = s :: rest :=
      rfl
    have hdeep : nodeMatches s (Elem.mk tg m dc f (s :: rest)) = false := by
      cases hnm : nodeMatches s (Elem.mk tg m dc f (s :: rest))
      · rfl
      · exfalso
        have hsz := nodeMatches_esize _ _ hnm
        have hm : esize s ≤ esizeList (s :: rest) := by
          simp only [esizeList]
          omega
        simp only [esize] at hsz
        omega
    have hseq : seqPairs (s :: rest)
        (Elem.mk tg m dc f (s :: rest)).children = true := by
      rw [hchildren]
      exact seqPairs_self _
    have htail : levelMatches [] (Elem.mk tg m dc f (s :: rest)) 1 rest =
        [] := by
      apply levelMatches_nil
      rw [hchildren]
      simp only [esizeList]
      have := esize_pos s
      omega
    have hrec : traverseChildren [] (Elem.mk tg m dc f (s :: rest)) 0
        (s :: rest) = [] := by
      apply traverseChildren_nil
      rw [hchildren]
    simp only [findSubtreeMatches, traverseElem, levelMatches, hdeep, hseq,
      htail, hrec, hchildren, if_true, if_false, Bool.false_eq_true,
      List.append_nil, List.nil_append, seqPairs_self]
    simp

/-- Witness for C5: a rendered single-glyph expression matched against
itself. -/
theorem findSubtreeMatches_self_single_full_match_witness :
    (Elem.mk "g" (some "math") none none
      [Elem.mk "g" (some "mi") (some "1D465") none []]).children ≠ [] ∧
    findSubtreeMatches
        (Elem.mk "g" (some "math") none none
          [Elem.mk "g" (some "mi") (some "1D465") none []])
        (Elem.mk "g" (some "math") none none
          [Elem.mk "g" (some "mi") (some "1D465") none []]) =
      [(List.range
          (Elem.mk "g" (some "math") none none
            [Elem.mk "g" (some "mi") (some "1D465") none []]).children.length).map
        (fun i => [i])] :=
  ⟨by simp [Elem.children],
   findSubtreeMatches_self_single_full_match
     (Elem.mk "g" (some "math") none none
       [Elem.mk "g" (some "mi") (some "1D465") none []])
     (by simp [Elem.children])⟩

/-! ### Export sequencing (C1) -/

/-- C1 counterexample: in both `bundle` and `download` the flattening step
does NOT run before the marker-embedding step completes — `embedMarkers`
is invoked and returns before `flattenSVG` is applied. -/
theorem bundle_download_flatten_not_before_embed :
    ¬(bundleSteps.indexOf ExportStep.flattenSVG <
      bundleSteps.indexOf ExportStep.embedMarkers) ∧
    ¬(downloadSteps.indexOf ExportStep.flattenSVG <
      downloadSteps.indexOf ExportStep.embedMarkers) := by
  constructor
  · decide
  · decide

/-- C1 (amended): in every invocation of `bundle` and `download`, marker
embedding runs to completion first and reference flattening is applied
afterwards (`createInlineStyledSvg`, then `embedMarkers`, then
`flattenSVG`). -/
theorem bundle_download_embed_before_flatten :
    bundleSteps.indexOf ExportStep.embedMarkers <
      bundleSteps.indexOf ExportStep.flattenSVG ∧
    downloadSteps.indexOf ExportStep.embedMarkers <
      downloadSteps.indexOf ExportStep.flattenSVG ∧
    bundleSteps.indexOf ExportStep.createInlineStyledSvg <
      bundleSteps.indexOf ExportStep.embedMarkers ∧
    downloadSteps.indexOf ExportStep.createInlineStyledSvg <
      downloadSteps.indexOf ExportStep.embedMarkers := by
  refine ⟨?_, ?_, ?_, ?_⟩ <;> decide

/-! ### Flattening idempotence (C4) -/

/-- C4 counterexample: on a document with a `use` whose resolved target
contains another `use`, one flattening leaves a symbol-reuse reference in
the output (inside the spliced clone) and a second flattening resolves it,
so applying flattening twice does not yield the same document as once. -/
theorem flattenSVG_not_idempotent_counterexample :
    (queryAll "use" (flattenSVG flattenCounterexampleDoc)).length = 1 ∧
    (queryAll "use"
      (flattenSVG (flattenSVG flattenCounterexampleDoc))).length = 0 := by
  constructor
  · rfl
  · rfl

mutual

/-- With no `defs` descendant, the defs removal changes nothing. -/
theorem removeFirstDefsNode_no_defs :
    ∀ (n : XNode), queryAll "defs" n = [] →
      removeFirstDefsNode n = (n, false)
  | .mk i t a ch => by
    intro h
    simp only [queryAll] at h
    simp only [removeFirstDefsNode, removeFirstDefsList_no_defs ch h]

/-- Forest version of `removeFirstDefsNode_no_defs`. -/
theorem removeFirstDefsList_no_defs :
    ∀ (cs : List XNode), queryAllList "defs" cs = [] →
      removeFirstDefsList cs = (cs, false)
  | [] => by intro _; rfl
  | c :: cs => by
    intro h
    simp only [queryAllList, List.append_eq_nil] at h
    obtain ⟨⟨htag, hc⟩, hcs⟩ := h
    have htag' : c.tag ≠ "defs" := by
      intro he
      simp [he] at htag
    simp only [removeFirstDefsList, htag', if_false,
      removeFirstDefsNode_no_defs c hc, removeFirstDefsList_no_defs cs hcs]
    simp

end

/-- C4 (amended): on an already-flat document — no symbol-reuse references
and no shared-definitions container — flattening is a no-op, and hence a
second application agrees with the first.  (Idempotence fails in general:
see the counterexample, where a resolved target's subtree carries another
reference.) -/
theorem flattenSVG_noop_on_flat (d : XNode)
    (hu : queryAll "use" d = []) (hd : queryAll "defs" d = []) :
    flattenSVG d = d ∧ flattenSVG (flattenSVG d) = flattenSVG d := by
  have h1 : flattenSVG d = d := by
    unfold flattenSVG
    rw [hu]
    simp only [List.foldl]
    simp [removeFirstDefs, removeFirstDefsNode_no_defs d hd]
  exact ⟨h1, by rw [h1, h1]⟩

/-- Witness for C4's amended claim: a flat one-rectangle document. -/
theorem flattenSVG_noop_on_flat_witness :
    queryAll "use" (XNode.mk 0 "svg" [] [XNode.mk 1 "rect" [] []]) = [] ∧
    queryAll "defs" (XNode.mk 0 "svg" [] [XNode.mk 1 "rect" [] []]) = [] ∧
    (flattenSVG (XNode.mk 0 "svg" [] [XNode.mk 1 "rect" [] []]) =
        XNode.mk 0 "svg" [] [XNode.mk 1 "rect" [] []] ∧
      flattenSVG (flattenSVG (XNode.mk 0 "svg" [] [XNode.mk 1 "rect" [] []])) =
        flattenSVG (XNode.mk 0 "svg" [] [XNode.mk 1 "rect" [] []])) :=
  ⟨rfl, rfl,
   flattenSVG_noop_on_flat (XNode.mk 0 "svg" [] [XNode.mk 1 "rect" [] []])
     rfl rfl⟩

/-! ### Marker embedding (C6) -/

/-- C6 counterexample: a document whose only marker reference sits on a
`circle`.  Every marker reference on a line or path element resolves
(vacuously), yet after `embedMarkers` the document still contains a
marker-reference attribute — the operation only processes `line` and
`path` elements. -/
theorem embedMarkers_nonline_retains_marker_counterexample :
    embedMarkers trivialOracle embedCounterexampleDoc (JNum.fin 4) =
      some embedCounterexampleDoc ∧
    markerFree embedCounterexampleDoc = false := by
  constructor
  · rfl
  · rfl

mutual

/-- A marker-free subtree contributes nothing to the marked-element
snapshots. -/
theorem queryMarked_markerFree (pos : String)
    (hpos : pos = "marker-end" ∨ pos = "marker-start") :
    ∀ (n : XNode), markerFree n = true → queryMarked pos n = []
  | .mk i t a ch => by
    intro h
    simp only [markerFree, Bool.and_eq_true] at h
    simp only [queryMarked,
      queryMarkedList_markerFree pos hpos ch h.2]

/-- Forest version of `queryMarked_markerFree`. -/
theorem queryMarkedList_markerFree (pos : String)
    (hpos : pos = "marker-end" ∨ pos = "marker-start") :
    ∀ (cs : List XNode), markerFreeList cs = true →
      queryMarkedList pos cs = []
  | [] => by intro _; rfl
  | c :: cs => by
    intro h
    simp only [markerFreeList, Bool.and_eq_true] at h
    have hattr : (c.getAttr pos).isSome = false := by
      obtain ⟨i, t, a, ch⟩ := c
      simp only [markerFree, Bool.and_eq_true] at h
      rcases hpos with hp | hp <;>
        · subst hp
          simp only [XNode.getAttr, XNode.attrs]
          simp [Option.isNone_iff_eq_none.mp] at h ⊢
          rcases h with ⟨⟨h1, h2⟩, _⟩
          simp [h1, h2]
    simp only [queryMarkedList, hattr,
      queryMarked_markerFree pos hpos c h.1,
      queryMarkedList_markerFree pos hpos cs h.2]
    simp

end

mutual

/-- A subtree without the identity does not dereference it. -/
theorem findNode_none_of_hasNid_false (k : Nat) :
    ∀ (n : XNode), hasNid k n = false → findNode k n = none
  | .mk i t a ch => by
    intro h
    simp only [hasNid, Bool.or_eq_false_iff, beq_eq_false_iff_ne] at h
    simp [findNode, h.1, findNodeList_none_of_hasNidList_false k ch h.2]

/-- Forest version of `findNode_none_of_hasNid_false`. -/
theorem findNodeList_none_of_hasNidList_false (k : Nat) :
    ∀ (cs : List XNode), hasNidList k cs = false → findNodeList k cs = none
  | [] => by intro _; rfl
  | c :: cs => by
    intro h
    simp only [hasNidList, Bool.or_eq_false_iff] at h
    simp only [findNodeList, findNode_none_of_hasNid_false k c h.1,
      findNodeList_none_of_hasNidList_false k cs h.2]

end

mutual

/-- Mutating through an identity absent from a subtree changes nothing. -/
theorem mapNode_self_of_hasNid_false (k : Nat) (f : XNode → XNode) :
    ∀ (n : XNode), hasNid k n = false → mapNode k f n = n
  | .mk i t a ch => by
    intro h
    simp only [hasNid, Bool.or_eq_false_iff] at h
    simp only [mapNode, mapNodeList_self_of_hasNidList_false k f ch h.2]

/-- Forest version of `mapNode_self_of_hasNid_false`. -/
theorem mapNodeList_self_of_hasNidList_false (k : Nat) (f : XNode → XNode) :
    ∀ (cs : List XNode), hasNidList k cs = false →
      mapNodeList k f cs = cs
  | [] => by intro _; rfl
  | c :: cs => by
    intro h
    simp only [hasNidList, Bool.or_eq_false_iff, beq_eq_false_iff_ne] at h
    have hc : c.nid ≠ k := by
      obtain ⟨i, t, a, ch⟩ := c
      simp only [hasNid, Bool.or_eq_false_iff, beq_eq_false_iff_ne] at h
      exact h.1.1
    simp [mapNodeList, hc, mapNode_self_of_hasNid_false k f c h.1,
      mapNodeList_self_of_hasNidList_false k f cs h.2]

end

mutual

/-- Cloning preserves tags and attributes, hence marker-freedom. -/
theorem markerFree_cloneFresh :
    ∀ (n : XNode) (ctr : Nat), markerFree (cloneFresh n ctr).1 = markerFree n
  | .mk i t a ch, ctr => by
    simp only [cloneFresh, markerFree,
      markerFreeList_cloneFreshList ch (ctr + 1)]

/-- Forest version of `markerFree_cloneFresh`. -/
theorem markerFreeList_cloneFreshList :
    ∀ (cs : List XNode) (ctr : Nat),
      markerFreeList (cloneFreshList cs ctr).1 = markerFreeList cs
  | [], ctr => rfl
  | c :: cs, ctr => by
    simp only [cloneFreshList, markerFreeList, markerFree_cloneFresh c ctr,
      markerFreeList_cloneFreshList cs (cloneFresh c ctr).2]

end

/-- Writing an unrelated attribute leaves a lookup unchanged. -/
theorem getAttrList_setAttrList_ne (name pos : String) (h : pos ≠ name)
    (v : AttrV) :
    ∀ (a : List (String × AttrV)),
      getAttrList pos (setAttrList name v a) = getAttrList pos a
  | [] => by simp [setAttrList, getAttrList, Ne.symm h]
  | (k, w) :: rest => by
    by_cases hk : k = name
    · simp only [setAttrList, hk, if_true, getAttrList]
      simp [Ne.symm h]
    · simp only [setAttrList, hk, if_false, getAttrList]
      by_cases hkp : k = pos
      · simp [hkp]
      · simp [hkp, getAttrList_setAttrList_ne name pos h v rest]

/-- Setting `transform` preserves marker-freedom. -/
theorem markerFree_setAttr_transform (n : XNode) (v : AttrV) :
    markerFree (n.setAttr "transform" v) = markerFree n := by
  obtain ⟨i, t, a, ch⟩ := n
  simp only [XNode.setAttr, XNode.nid, XNode.tag, XNode.attrs,
    XNode.children, markerFree,
    getAttrList_setAttrList_ne "transform" "marker-end" (by decide) v a,
    getAttrList_setAttrList_ne "transform" "marker-start" (by decide) v a]

/-- Exact output of `embedMarkers` on the one-line document family: the
line is trimmed at both ends with both marker-reference attributes
removed, plus one appended synthetic arrowhead glyph per formerly-marked
endpoint — a fresh clone of the marker content positioned at that
endpoint's anchor and rotated to its angle (start angle flipped by π) —
and the result carries no marker-reference attribute anywhere. -/
theorem embedMarkers_oneLine_exact
    (O : DomOracle) (trim : JNum) (content : XNode)
    (rX rY x1 y1 x2 y2 : JNum)
    (hmf : markerFree content = true)
    (hn4 : hasNid 4 content = false) :
    embedMarkers O (oneLineDoc content rX rY x1 y1 x2 y2) trim =
      some (embedOneLineExpected O trim content rX rY x1 y1 x2 y2) ∧
    markerFree (embedOneLineExpected O trim content rX rY x1 y1 x2 y2) =
      true := by
  refine ⟨?side1, ?side2⟩
  case side2 =>
    obtain ⟨ic, tc, ac, cc⟩ := content
    have hmf2 := hmf
    simp only [markerFree, Bool.and_eq_true, Option.isNone_iff_eq_none] at hmf2
    obtain ⟨⟨hE, hS⟩, hL⟩ := hmf2
    have hsplit : ∀ (i : Nat) (t : String) (a : List (String × AttrV))
        (ch : List XNode),
        markerFree (XNode.mk i t a ch) =
          ((getAttrList "marker-end" a).isNone &&
            (getAttrList "marker-start" a).isNone && markerFreeList ch) :=
      fun _ _ _ _ => rfl
    have hconsL : ∀ (c : XNode) (cs : List XNode),
        markerFreeList (c :: cs) = (markerFree c && markerFreeList cs) :=
      fun _ _ => rfl
    have hnilL : markerFreeList ([] : List XNode) = true := rfl
    simp only [embedOneLineExpected, oneLineDoc,
      markerFree_setAttr_transform, markerFree_cloneFresh, hmf,
      hsplit, hconsL, hnilL, hE, hS, hL,
      getAttrList, XNode.attrs, String.reduceEq, reduceIte, Option.isNone,
      Bool.and_true, Bool.true_and, and_true, true_and, Bool.and_self]
  case side1 =>
    have hstrip : stripUrlId "url(#arrow)" = "arrow" := rfl
    obtain ⟨ic, tc, ac, cc⟩ := content
    have hmf2 := hmf
    simp only [markerFree, Bool.and_eq_true, Option.isNone_iff_eq_none] at hmf2
    obtain ⟨⟨hE, hS⟩, hL⟩ := hmf2
    have hqcE : queryMarkedList "marker-end" cc = [] :=
      queryMarkedList_markerFree _ (Or.inl rfl) cc hL
    have hqcS : queryMarkedList "marker-start" cc = [] :=
      queryMarkedList_markerFree _ (Or.inr rfl) cc hL
    have hn4' := hn4
    simp only [hasNid, Bool.or_eq_false_iff, beq_eq_false_iff_ne] at hn4'
    obtain ⟨hic, hcc4⟩ := hn4'
    have hfnl : findNodeList 4 cc = none :=
      findNodeList_none_of_hasNidList_false 4 cc hcc4
    have hmnl : ∀ (f : XNode → XNode), mapNodeList 4 f cc = cc :=
      fun f => mapNodeList_self_of_hasNidList_false 4 f cc hcc4
    simp only [embedMarkers, oneLineDoc, embedOneLineExpected,
      queryMarked, queryMarkedList, hqcE, hqcS, hE, hS,
      XNode.tag, XNode.nid, XNode.attrs, XNode.children, XNode.getAttr,
      XNode.setAttr, XNode.removeAttr, getAttrList, setAttrList,
      removeAttrList, List.foldlM, processMarker, findNode, findNodeList,
      hic, hfnl, findById, findByIdList, mapNode, mapNodeList, hmnl,
      trimLine, parseFloatOrZero, parseFloatAttr, attrToStr, hstrip,
      appendChild, maxId, maxIdList, Option.isSome, Option.bind,
      bind, pure, String.reduceEq, reduceIte, true_or, or_true, false_or,
      or_false, true_and, and_true, false_and, and_false, Bool.false_eq_true,
      Bool.true_eq_false, List.append_nil, List.nil_append, List.cons_append,
      List.append_assoc, Nat.zero_le, Nat.max_self, Nat.zero_max, Nat.max_zero,
      reduceCtorEq, Option.some.injEq, AttrV.str.injEq, List.append_eq]
    simp only [processMarker, findNode, findNodeList, hic, hfnl, findById,
      findByIdList, mapNode, mapNodeList, hmnl, trimLine, parseFloatOrZero,
      parseFloatAttr, attrToStr, hstrip, appendChild, XNode.tag, XNode.nid,
      XNode.attrs, XNode.children, XNode.getAttr, XNode.setAttr,
      XNode.removeAttr, getAttrList, setAttrList, removeAttrList,
      Option.isSome, Option.bind, hE, hS, List.foldlM, pure,
      String.reduceEq, reduceIte, true_or, or_true, false_or,
      or_false, true_and, and_true, false_and, and_false, Bool.false_eq_true,
      Bool.true_eq_false, List.append_nil, List.nil_append, List.cons_append,
      List.append_assoc, Nat.reduceEqDiff,
      reduceCtorEq, Option.some.injEq, AttrV.str.injEq, List.append_eq]

/-! ### Frame lemmas for marker embedding on general documents -/

/-- `listNidsList` distributes over append. -/
theorem listNidsList_append :
    ∀ (xs ys : List XNode),
      listNidsList (xs ++ ys) = listNidsList xs ++ listNidsList ys
  | [], ys => by simp [listNidsList]
  | x :: xs, ys => by
    simp [listNidsList, listNidsList_append xs ys]

/-- `attrMarkedList` distributes over append. -/
theorem attrMarkedList_append (pos : String) :
    ∀ (xs ys : List XNode),
      attrMarkedList pos (xs ++ ys) =
        attrMarkedList pos xs ++ attrMarkedList pos ys
  | [], ys => by simp [attrMarkedList]
  | x :: xs, ys => by
    simp [attrMarkedList, attrMarkedList_append pos xs ys]

/-- `queryMarkedList` distributes over append. -/
theorem queryMarkedList_append (pos : String) :
    ∀ (xs ys : List XNode),
      queryMarkedList pos (xs ++ ys) =
        queryMarkedList pos xs ++ queryMarkedList pos ys
  | [], ys => by simp [queryMarkedList]
  | x :: xs, ys => by
    simp [queryMarkedList, queryMarkedList_append pos xs ys]

/-- `findByIdList` scans an appended list left to right. -/
theorem findByIdList_append (idv : String) :
    ∀ (xs ys : List XNode),
      findByIdList idv (xs ++ ys) =
        (match findByIdList idv xs with
         | some m => some m
         | none => findByIdList idv ys)
  | [], ys => by simp [findByIdList]
  | x :: xs, ys => by
    by_cases h : x.getAttr "id" = some (.str idv)
    · simp [findByIdList, h]
    · simp only [List.cons_append, findByIdList, h, if_false]
      cases hx : findById idv x
      · simp [findByIdList_append idv xs ys]
      · simp

/-- `findNodeList` scans an appended list left to right. -/
theorem findNodeList_append (k : Nat) :
    ∀ (xs ys : List XNode),
      findNodeList k (xs ++ ys) =
        (match findNodeList k xs with
         | some m => some m
         | none => findNodeList k ys)
  | [], ys => by simp [findNodeList]
  | x :: xs, ys => by
    simp only [List.cons_append, findNodeList]
    cases hx : findNode k x
    · simp [findNodeList_append k xs ys]
    · simp

/-- `mapNodeList` preserves the sibling count. -/
theorem mapNodeList_length (k : Nat) (f : XNode → XNode) :
    ∀ (cs : List XNode), (mapNodeList k f cs).length = cs.length
  | [] => rfl
  | c :: cs => by
    by_cases h : c.nid = k
    · simp [mapNodeList, h]
    · simp [mapNodeList, h, mapNodeList_length k f cs]

/-- `removeAttrList` removes the binding. -/
theorem getAttrList_removeAttrList_self (name : String) :
    ∀ (a : List (String × AttrV)),
      getAttrList name (removeAttrList name a) = none
  | [] => rfl
  | (k, w) :: rest => by
    by_cases h : k = name
    · simp [removeAttrList, h, getAttrList_removeAttrList_self name rest]
    · simp [removeAttrList, getAttrList, h,
        getAttrList_removeAttrList_self name rest]

/-- `removeAttrList` leaves other lookups unchanged. -/
theorem getAttrList_removeAttrList_ne (name pos : String) (h : pos ≠ name) :
    ∀ (a : List (String × AttrV)),
      getAttrList pos (removeAttrList name a) = getAttrList pos a
  | [] => rfl
  | (k, w) :: rest => by
    by_cases hk : k = name
    · subst hk
      simp [removeAttrList, getAttrList, Ne.symm h,
        getAttrList_removeAttrList_ne k pos h rest]
    · simp [removeAttrList, getAttrList, hk,
        getAttrList_removeAttrList_ne name pos h rest]

mutual

/-- Every identity in a subtree is bounded by `maxId`. -/
theorem mem_listNids_le_maxId :
    ∀ (n : XNode) (k : Nat), k ∈ listNids n → k ≤ maxId n
  | .mk i t a ch, k => by
    intro h
    simp only [listNids, List.mem_cons] at h
    simp only [maxId]
    rcases h with h | h
    · omega
    · have := mem_listNidsList_le_maxIdList ch k h
      omega

/-- Forest version of `mem_listNids_le_maxId`. -/
theorem mem_listNidsList_le_maxIdList :
    ∀ (cs : List XNode) (k : Nat), k ∈ listNidsList cs → k ≤ maxIdList cs
  | [], k => by intro h; simp [listNidsList] at h
  | c :: cs, k => by
    intro h
    simp only [listNidsList, List.mem_append] at h
    simp only [maxIdList]
    rcases h with h | h
    · have := mem_listNids_le_maxId c k h
      omega
    · have := mem_listNidsList_le_maxIdList cs k h
      omega

end

/-- `listNids` of an opaque node in component form. -/
theorem listNids_node :
    ∀ (n : XNode), listNids n = n.nid :: listNidsList n.children
  | .mk _ _ _ _ => rfl

/-- `queryMarked` of an opaque node in component form. -/
theorem queryMarked_node (pos : String) :
    ∀ (n : XNode), queryMarked pos n = queryMarkedList pos n.children
  | .mk _ _ _ _ => rfl

/-- `attrMarked` of an opaque node in component form. -/
theorem attrMarked_node (pos : String) :
    ∀ (n : XNode),
      attrMarked pos n =
        (if (n.getAttr pos).isSome then [n.nid] else []) ++
          attrMarkedList pos n.children
  | .mk _ _ _ _ => rfl

/-- `hasNid` of an opaque node in component form. -/
theorem hasNid_node (k : Nat) :
    ∀ (n : XNode), hasNid k n = ((n.nid == k) || hasNidList k n.children)
  | .mk _ _ _ _ => rfl

/-- `findNode` of an opaque node in component form. -/
theorem findNode_node (k : Nat) :
    ∀ (n : XNode),
      findNode k n = if n.nid = k then some n else findNodeList k n.children
  | .mk _ _ _ _ => rfl

/-- `findById` of an opaque node in component form. -/
theorem findById_node (idv : String) :
    ∀ (n : XNode), findById idv n = findByIdList idv n.children
  | .mk _ _ _ _ => rfl

/-- `mapNode` of an opaque node in component form. -/
theorem mapNode_node (k : Nat) (f : XNode → XNode) :
    ∀ (n : XNode),
      mapNode k f n = XNode.mk n.nid n.tag n.attrs (mapNodeList k f n.children)
  | .mk _ _ _ _ => rfl

/-- `mapNodeList` on a cons cell. -/
theorem mapNodeList_cons (k : Nat) (f : XNode → XNode) (c : XNode)
    (cs : List XNode) :
    mapNodeList k f (c :: cs) =
      if c.nid = k then f c :: cs
      else mapNode k f c :: mapNodeList k f cs := rfl

/-- `appendChild` of an opaque node in component form. -/
theorem appendChild_node :
    ∀ (n c : XNode),
      appendChild n c = XNode.mk n.nid n.tag n.attrs (n.children ++ [c])
  | .mk _ _ _ _, _ => rfl

/-- `markerFree` of an opaque node in component form. -/
theorem markerFree_node :
    ∀ (n : XNode),
      markerFree n =
        ((getAttrList "marker-end" n.attrs).isNone &&
          (getAttrList "marker-start" n.attrs).isNone &&
          markerFreeList n.children)
  | .mk _ _ _ _ => rfl

/-- `markerFreeList` on a cons cell. -/
theorem markerFreeList_cons (c : XNode) (cs : List XNode) :
    markerFreeList (c :: cs) = (markerFree c && markerFreeList cs) := rfl

/-- `cloneFresh` of an opaque node in component form. -/
theorem cloneFresh_node :
    ∀ (n : XNode) (ctr : Nat),
      cloneFresh n ctr =
        (XNode.mk ctr n.tag n.attrs (cloneFreshList n.children (ctr + 1)).1,
          (cloneFreshList n.children (ctr + 1)).2)
  | .mk _ _ _ _, _ => rfl

/-- `xsize` of an opaque node in component form. -/
theorem xsize_node : ∀ (n : XNode), xsize n = 1 + xsizeList n.children
  | .mk _ _ _ _ => rfl

/-- `setAttribute` preserves the identity. -/
theorem setAttr_nid (n : XNode) (name : String) (v : AttrV) :
    (n.setAttr name v).nid = n.nid := rfl

/-- `setAttribute` preserves the tag. -/
theorem setAttr_tag (n : XNode) (name : String) (v : AttrV) :
    (n.setAttr name v).tag = n.tag := rfl

/-- `setAttribute` preserves the children. -/
theorem setAttr_children (n : XNode) (name : String) (v : AttrV) :
    (n.setAttr name v).children = n.children := rfl

/-- The attributes after `setAttribute`. -/
theorem setAttr_attrs (n : XNode) (name : String) (v : AttrV) :
    (n.setAttr name v).attrs = setAttrList name v n.attrs := rfl

/-- `removeAttribute` preserves the identity. -/
theorem removeAttr_nid (n : XNode) (name : String) :
    (n.removeAttr name).nid = n.nid := rfl

/-- `removeAttribute` preserves the tag. -/
theorem removeAttr_tag (n : XNode) (name : String) :
    (n.removeAttr name).tag = n.tag := rfl

/-- `removeAttribute` preserves the children. -/
theorem removeAttr_children (n : XNode) (name : String) :
    (n.removeAttr name).children = n.children := rfl

/-- The attributes after `removeAttribute`. -/
theorem removeAttr_attrs (n : XNode) (name : String) :
    (n.removeAttr name).attrs = removeAttrList name n.attrs := rfl

/-- `mapNode` preserves the root identity. -/
theorem mapNode_nid (k : Nat) (f : XNode → XNode) (n : XNode) :
    (mapNode k f n).nid = n.nid := by rw [mapNode_node]; rfl

/-- `mapNode` preserves the root tag. -/
theorem mapNode_tag (k : Nat) (f : XNode → XNode) (n : XNode) :
    (mapNode k f n).tag = n.tag := by rw [mapNode_node]; rfl

/-- `mapNode` preserves the root attributes. -/
theorem mapNode_attrs (k : Nat) (f : XNode → XNode) (n : XNode) :
    (mapNode k f n).attrs = n.attrs := by rw [mapNode_node]; rfl

/-- The children after `mapNode`. -/
theorem mapNode_children (k : Nat) (f : XNode → XNode) (n : XNode) :
    (mapNode k f n).children = mapNodeList k f n.children := by
  rw [mapNode_node]; rfl

/-- `mapNode` preserves the root attribute lookups. -/
theorem mapNode_getAttr (k : Nat) (f : XNode → XNode) (n : XNode)
    (name : String) : (mapNode k f n).getAttr name = n.getAttr name := by
  rw [XNode.getAttr, XNode.getAttr, mapNode_attrs]

/-- `setAttribute` preserves the identity list. -/
theorem listNids_setAttr (n : XNode) (name : String) (v : AttrV) :
    listNids (n.setAttr name v) = listNids n := by
  rw [listNids_node, listNids_node, setAttr_nid, setAttr_children]

/-- `trimLine` preserves the identity. -/
theorem trimLine_nid (O : DomOracle) (trim : JNum) (el : XNode) (b : Bool) :
    (trimLine O trim el b).nid = el.nid := by
  cases b <;> simp [trimLine, setAttr_nid]

/-- `trimLine` preserves the tag. -/
theorem trimLine_tag (O : DomOracle) (trim : JNum) (el : XNode) (b : Bool) :
    (trimLine O trim el b).tag = el.tag := by
  cases b <;> simp [trimLine, setAttr_tag]

/-- `trimLine` preserves the children. -/
theorem trimLine_children (O : DomOracle) (trim : JNum) (el : XNode)
    (b : Bool) : (trimLine O trim el b).children = el.children := by
  cases b <;> simp [trimLine, setAttr_children]

/-- `trimLine` touches only the four endpoint coordinates. -/
theorem trimLine_getAttr_ne (O : DomOracle) (trim : JNum) (el : XNode)
    (b : Bool) (name : String) (h1 : name ≠ "x1") (h2 : name ≠ "y1")
    (h3 : name ≠ "x2") (h4 : name ≠ "y2") :
    (trimLine O trim el b).getAttr name = el.getAttr name := by
  cases b <;>
    simp [trimLine, XNode.getAttr, setAttr_attrs,
      getAttrList_setAttrList_ne _ _ h1, getAttrList_setAttrList_ne _ _ h2,
      getAttrList_setAttrList_ne _ _ h3, getAttrList_setAttrList_ne _ _ h4]

/-- Two booleans agreeing as propositions are equal. -/
theorem bool_eq_of_iff {a b : Bool} (h : a = true ↔ b = true) : a = b := by
  cases a <;> cases b <;> simp_all

mutual

/-- `hasNid` tests membership in the identity list. -/
theorem hasNid_iff_mem (k : Nat) :
    ∀ (n : XNode), hasNid k n = true ↔ k ∈ listNids n
  | .mk i t a ch => by
    simp only [hasNid, listNids, List.mem_cons, Bool.or_eq_true, beq_iff_eq,
      hasNidList_iff_mem k ch]
    constructor
    · rintro (h | h)
      · exact Or.inl h.symm
      · exact Or.inr h
    · rintro (h | h)
      · exact Or.inl h.symm
      · exact Or.inr h

/-- Forest version of `hasNid_iff_mem`. -/
theorem hasNidList_iff_mem (k : Nat) :
    ∀ (cs : List XNode), hasNidList k cs = true ↔ k ∈ listNidsList cs
  | [] => by simp [hasNidList, listNidsList]
  | c :: cs => by
    simp only [hasNidList, listNidsList, List.mem_append, Bool.or_eq_true,
      hasNid_iff_mem k c, hasNidList_iff_mem k cs]

end

mutual

/-- A contained identity dereferences successfully. -/
theorem findNode_isSome_of_hasNid (k : Nat) :
    ∀ (n : XNode), hasNid k n = true → (findNode k n).isSome = true
  | .mk i t a ch => by
    intro h
    simp only [hasNid, Bool.or_eq_true, beq_iff_eq] at h
    by_cases hik : i = k
    · simp [findNode, hik]
    · rcases h with h | h
      · exact absurd h hik
      · simp only [findNode, if_neg hik]
        exact findNodeList_isSome_of_hasNidList k ch h

/-- Forest version of `findNode_isSome_of_hasNid`. -/
theorem findNodeList_isSome_of_hasNidList (k : Nat) :
    ∀ (cs : List XNode), hasNidList k cs = true →
      (findNodeList k cs).isSome = true
  | [] => by intro h; simp [hasNidList] at h
  | c :: cs => by
    intro h
    simp only [hasNidList, Bool.or_eq_true] at h
    cases hc : findNode k c
    · simp only [findNodeList, hc]
      rcases h with h | h
      · have := findNode_isSome_of_hasNid k c h
        rw [hc] at this
        simp at this
      · exact findNodeList_isSome_of_hasNidList k cs h
    · simp [findNodeList, hc]

end

/-- A failed dereference means the identity is absent. -/
theorem hasNid_false_of_findNode_none (k : Nat) (n : XNode)
    (h : findNode k n = none) : hasNid k n = false := by
  cases hh : hasNid k n
  · rfl
  · have := findNode_isSome_of_hasNid k n hh
    rw [h] at this
    simp at this

/-- Forest version of `hasNid_false_of_findNode_none`. -/
theorem hasNidList_false_of_findNodeList_none (k : Nat) (cs : List XNode)
    (h : findNodeList k cs = none) : hasNidList k cs = false := by
  cases hh : hasNidList k cs
  · rfl
  · have := findNodeList_isSome_of_hasNidList k cs hh
    rw [h] at this
    simp at this

mutual

/-- A dereferenced node carries the dereferenced identity. -/
theorem findNode_nid (k : Nat) :
    ∀ (n : XNode) (el : XNode), findNode k n = some el → el.nid = k
  | .mk i t a ch, el => by
    intro h
    simp only [findNode] at h
    by_cases hik : i = k
    · rw [if_pos hik] at h
      cases h
      exact hik
    · rw [if_neg hik] at h
      exact findNodeList_nid k ch el h

/-- Forest version of `findNode_nid`. -/
theorem findNodeList_nid (k : Nat) :
    ∀ (cs : List XNode) (el : XNode), findNodeList k cs = some el →
      el.nid = k
  | [], el => by intro h; simp [findNodeList] at h
  | c :: cs, el => by
    intro h
    simp only [findNodeList] at h
    cases hc : findNode k c
    · rw [hc] at h
      exact findNodeList_nid k cs el h
    · rw [hc] at h
      cases h
      exact findNode_nid k c _ hc

end

/-- The marked-element snapshot is a sublist of the identity list. -/
theorem queryMarkedList_sublist_nids (pos : String) :
    ∀ (cs : List XNode),
      List.Sublist (queryMarkedList pos cs) (listNidsList cs)
  | [] => by simp [queryMarkedList, listNidsList]
  | XNode.mk i t a ch :: cs => by
    simp only [queryMarkedList, listNidsList, queryMarked, listNids,
      XNode.tag, XNode.nid, XNode.getAttr, XNode.attrs]
    refine List.Sublist.append ?_ (queryMarkedList_sublist_nids pos cs)
    by_cases hP : (t = "line" ∨ t = "path") ∧
        (getAttrList pos a).isSome = true
    · rw [if_pos hP]
      simpa using
        List.Sublist.cons₂ i (queryMarkedList_sublist_nids pos ch)
    · rw [if_neg hP]
      simpa using List.Sublist.cons i (queryMarkedList_sublist_nids pos ch)

/-- The attribute-carrier list is a sublist of the identity list. -/
theorem attrMarkedList_sublist_nids (pos : String) :
    ∀ (cs : List XNode),
      List.Sublist (attrMarkedList pos cs) (listNidsList cs)
  | [] => by simp [attrMarkedList, listNidsList]
  | XNode.mk i t a ch :: cs => by
    simp only [attrMarkedList, listNidsList, attrMarked, listNids,
      XNode.nid, XNode.getAttr, XNode.attrs]
    refine List.Sublist.append ?_ (attrMarkedList_sublist_nids pos cs)
    by_cases hP : (getAttrList pos a).isSome = true
    · rw [if_pos hP]
      simpa using
        List.Sublist.cons₂ i (attrMarkedList_sublist_nids pos ch)
    · rw [if_neg hP]
      simpa using List.Sublist.cons i (attrMarkedList_sublist_nids pos ch)

/-- Node-level form of `queryMarkedList_sublist_nids`. -/
theorem queryMarked_sublist_nids (pos : String) (n : XNode) :
    List.Sublist (queryMarked pos n) (listNids n) := by
  rw [queryMarked_node, listNids_node]
  exact List.Sublist.cons _ (queryMarkedList_sublist_nids pos n.children)

/-- Node-level form of `attrMarkedList_sublist_nids`. -/
theorem attrMarked_sublist_nids (pos : String) (n : XNode) :
    List.Sublist (attrMarked pos n) (listNids n) := by
  rw [attrMarked_node, listNids_node]
  by_cases hP : (n.getAttr pos).isSome = true
  · rw [if_pos hP]
    simpa using
      List.Sublist.cons₂ n.nid (attrMarkedList_sublist_nids pos n.children)
  · rw [if_neg hP]
    simpa using
      List.Sublist.cons n.nid (attrMarkedList_sublist_nids pos n.children)

/-- Mapping through an identity leaves later identity-free siblings
alone. -/
theorem mapNodeList_append_right (k : Nat) (f : XNode → XNode)
    (ys : List XNode) (hy : hasNidList k ys = false) :
    ∀ (xs : List XNode), mapNodeList k f (xs ++ ys) = mapNodeList k f xs ++ ys
  | [] => by
    simp [mapNodeList, mapNodeList_self_of_hasNidList_false k f ys hy]
  | c :: cs => by
    by_cases hc : c.nid = k
    · simp [mapNodeList_cons, hc]
    · simp [mapNodeList_cons, hc, mapNodeList_append_right k f ys hy cs]

mutual

/-- Two mutations through the same identity compose (the first preserves
the identity). -/
theorem mapNode_mapNode (k : Nat) (f g : XNode → XNode)
    (hg : ∀ e, (g e).nid = e.nid) :
    ∀ (n : XNode),
      mapNode k f (mapNode k g n) = mapNode k (fun e => f (g e)) n
  | .mk i t a ch => by
    simp only [mapNode, mapNodeList_mapNodeList k f g hg ch]

/-- Forest version of `mapNode_mapNode`. -/
theorem mapNodeList_mapNodeList (k : Nat) (f g : XNode → XNode)
    (hg : ∀ e, (g e).nid = e.nid) :
    ∀ (cs : List XNode),
      mapNodeList k f (mapNodeList k g cs) =
        mapNodeList k (fun e => f (g e)) cs
  | [] => rfl
  | c :: cs => by
    by_cases hc : c.nid = k
    · rw [mapNodeList_cons, if_pos hc, mapNodeList_cons,
        if_pos (by rw [hg c]; exact hc), mapNodeList_cons, if_pos hc]
    · rw [mapNodeList_cons, if_neg hc, mapNodeList_cons,
        if_neg (by rw [mapNode_nid]; exact hc), mapNodeList_cons, if_neg hc,
        mapNode_mapNode k f g hg c, mapNodeList_mapNodeList k f g hg cs]

end

mutual

/-- Mutation through an identity-preserving, children-preserving function
leaves the identity list unchanged. -/
theorem listNids_mapNode (k : Nat) (f : XNode → XNode)
    (hn : ∀ e, (f e).nid = e.nid) (hc : ∀ e, (f e).children = e.children) :
    ∀ (n : XNode), listNids (mapNode k f n) = listNids n
  | .mk i t a ch => by
    simp only [mapNode, listNids,
      listNidsList_mapNodeList k f hn hc ch]

/-- Forest version of `listNids_mapNode`. -/
theorem listNidsList_mapNodeList (k : Nat) (f : XNode → XNode)
    (hn : ∀ e, (f e).nid = e.nid) (hc : ∀ e, (f e).children = e.children) :
    ∀ (cs : List XNode), listNidsList (mapNodeList k f cs) = listNidsList cs
  | [] => rfl
  | c :: cs => by
    by_cases hck : c.nid = k
    · rw [mapNodeList_cons, if_pos hck]
      simp only [listNidsList, listNids_node, hn c, hc c]
    · rw [mapNodeList_cons, if_neg hck]
      simp only [listNidsList, listNids_mapNode k f hn hc c,
        listNidsList_mapNodeList k f hn hc cs]

end

/-- Mutation through an identity-preserving, children-preserving function
leaves identity membership unchanged. -/
theorem hasNid_mapNode (k j : Nat) (f : XNode → XNode)
    (hn : ∀ e, (f e).nid = e.nid) (hc : ∀ e, (f e).children = e.children)
    (n : XNode) : hasNid j (mapNode k f n) = hasNid j n :=
  bool_eq_of_iff (by
    rw [hasNid_iff_mem, hasNid_iff_mem, listNids_mapNode k f hn hc n])

/-- `listNids` of an appended child. -/
theorem listNids_appendChild (n c : XNode) :
    listNids (appendChild n c) = listNids n ++ listNids c := by
  rw [appendChild_node, listNids_node, listNids_node]
  simp [XNode.nid, XNode.children, listNidsList_append, listNidsList]

/-- Mutation that preserves identity, tag, children, and the presence of
the marker attribute preserves the marked-element snapshot. -/
theorem queryMarkedList_mapNodeList_pres (pos : String) (k : Nat)
    (f : XNode → XNode)
    (hn : ∀ e, (f e).nid = e.nid) (ht : ∀ e, (f e).tag = e.tag)
    (hc : ∀ e, (f e).children = e.children)
    (ha : ∀ e, ((f e).getAttr pos).isSome = (e.getAttr pos).isSome) :
    ∀ (cs : List XNode),
      queryMarkedList pos (mapNodeList k f cs) = queryMarkedList pos cs
  | [] => rfl
  | XNode.mk i t a ch :: cs => by
    by_cases hck : i = k
    · rw [mapNodeList_cons]
      simp only [XNode.nid]
      rw [if_pos hck]
      simp only [queryMarkedList, queryMarked_node, hn, ht, hc, ha]
    · rw [mapNodeList_cons]
      simp only [XNode.nid]
      rw [if_neg hck]
      simp only [queryMarkedList, mapNode, queryMarked, XNode.nid, XNode.tag,
        XNode.getAttr, XNode.attrs, XNode.children,
        queryMarkedList_mapNodeList_pres pos k f hn ht hc ha ch,
        queryMarkedList_mapNodeList_pres pos k f hn ht hc ha cs]

/-- Mutation that preserves identity, children, and the presence of the
attribute preserves the attribute-carrier list. -/
theorem attrMarkedList_mapNodeList_pres (pos : String) (k : Nat)
    (f : XNode → XNode)
    (hn : ∀ e, (f e).nid = e.nid)
    (hc : ∀ e, (f e).children = e.children)
    (ha : ∀ e, ((f e).getAttr pos).isSome = (e.getAttr pos).isSome) :
    ∀ (cs : List XNode),
      attrMarkedList pos (mapNodeList k f cs) = attrMarkedList pos cs
  | [] => rfl
  | XNode.mk i t a ch :: cs => by
    by_cases hck : i = k
    · rw [mapNodeList_cons]
      simp only [XNode.nid]
      rw [if_pos hck]
      simp only [attrMarkedList, attrMarked_node, hn, hc, ha]
    · rw [mapNodeList_cons]
      simp only [XNode.nid]
      rw [if_neg hck]
      simp only [attrMarkedList, mapNode, attrMarked, XNode.nid,
        XNode.getAttr, XNode.attrs, XNode.children,
        attrMarkedList_mapNodeList_pres pos k f hn hc ha ch,
        attrMarkedList_mapNodeList_pres pos k f hn hc ha cs]

/-- Mutation through a unique identity that erases the marker attribute
(preserving identity, tag, children) deletes exactly that identity from
the marked-element snapshot. -/
theorem queryMarkedList_mapNodeList_kill (pos : String) (k : Nat)
    (f : XNode → XNode)
    (hn : ∀ e, (f e).nid = e.nid) (ht : ∀ e, (f e).tag = e.tag)
    (hc : ∀ e, (f e).children = e.children)
    (ha : ∀ e, (f e).getAttr pos = none) :
    ∀ (cs : List XNode), (listNidsList cs).count k ≤ 1 →
      queryMarkedList pos (mapNodeList k f cs) =
        (queryMarkedList pos cs).filter (fun j => !decide (j = k))
  | [] => by intro _; rfl
  | XNode.mk i t a ch :: cs => by
    intro hcount
    simp only [listNidsList, listNids, List.count_append,
      List.count_cons] at hcount
    by_cases hck : i = k
    · have hik : (i == k) = true := beq_iff_eq.mpr hck
      rw [hik] at hcount
      simp only [if_true] at hcount
      have h1 : (listNidsList ch).count k = 0 := by omega
      have h2 : (listNidsList cs).count k = 0 := by omega
      have hmch : k ∉ queryMarkedList pos ch := fun hm =>
        (List.count_eq_zero.mp h1)
          ((queryMarkedList_sublist_nids pos ch).subset hm)
      have hmcs : k ∉ queryMarkedList pos cs := fun hm =>
        (List.count_eq_zero.mp h2)
          ((queryMarkedList_sublist_nids pos cs).subset hm)
      have hfch : (queryMarkedList pos ch).filter (fun j => !decide (j = k)) =
          queryMarkedList pos ch :=
        List.filter_eq_self.mpr (fun j hj => by
          simp only [Bool.not_eq_true', decide_eq_false_iff_not]
          exact fun hjk => hmch (hjk ▸ hj))
      have hfcs : (queryMarkedList pos cs).filter (fun j => !decide (j = k)) =
          queryMarkedList pos cs :=
        List.filter_eq_self.mpr (fun j hj => by
          simp only [Bool.not_eq_true', decide_eq_false_iff_not]
          exact fun hjk => hmcs (hjk ▸ hj))
      rw [mapNodeList_cons]
      simp only [XNode.nid]
      rw [if_pos hck]
      simp only [queryMarkedList, queryMarked_node, hc, ha,
        Option.isSome_none, Bool.false_eq_true, and_false, if_false,
        List.filter_append, hfch, hfcs, List.nil_append]
      simp only [XNode.children, XNode.tag, XNode.getAttr, XNode.attrs,
        XNode.nid]
      by_cases hP : (t = "line" ∨ t = "path") ∧
          (getAttrList pos a).isSome = true
      · rw [if_pos hP]
        subst hck
        simp
        exact hfch.symm
      · rw [if_neg hP]
        simp
        exact hfch.symm
    · have hik : (i == k) = false := beq_eq_false_iff_ne.mpr hck
      rw [hik] at hcount
      simp only [Bool.false_eq_true, if_false] at hcount
      have h1 : (listNidsList ch).count k ≤ 1 := by omega
      have h2 : (listNidsList cs).count k ≤ 1 := by omega
      rw [mapNodeList_cons]
      simp only [XNode.nid]
      rw [if_neg hck]
      simp only [queryMarkedList, mapNode, queryMarked, XNode.children,
        XNode.tag, XNode.getAttr, XNode.attrs, XNode.nid,
        queryMarkedList_mapNodeList_kill pos k f hn ht hc ha ch h1,
        queryMarkedList_mapNodeList_kill pos k f hn ht hc ha cs h2,
        List.filter_append]
      congr 1
      congr 1
      by_cases hP : (t = "line" ∨ t = "path") ∧
          (getAttrList pos a).isSome = true
      · rw [if_pos hP]
        simp [hck]
      · rw [if_neg hP]
        rfl

/-- `attrMarked` version of `queryMarkedList_mapNodeList_kill`. -/
theorem attrMarkedList_mapNodeList_kill (pos : String) (k : Nat)
    (f : XNode → XNode)
    (hn : ∀ e, (f e).nid = e.nid)
    (hc : ∀ e, (f e).children = e.children)
    (ha : ∀ e, (f e).getAttr pos = none) :
    ∀ (cs : List XNode), (listNidsList cs).count k ≤ 1 →
      attrMarkedList pos (mapNodeList k f cs) =
        (attrMarkedList pos cs).filter (fun j => !decide (j = k))
  | [] => by intro _; rfl
  | XNode.mk i t a ch :: cs => by
    intro hcount
    simp only [listNidsList, listNids, List.count_append,
      List.count_cons] at hcount
    by_cases hck : i = k
    · have hik : (i == k) = true := beq_iff_eq.mpr hck
      rw [hik] at hcount
      simp only [if_true] at hcount
      have h1 : (listNidsList ch).count k = 0 := by omega
      have h2 : (listNidsList cs).count k = 0 := by omega
      have hmch : k ∉ attrMarkedList pos ch := fun hm =>
        (List.count_eq_zero.mp h1)
          ((attrMarkedList_sublist_nids pos ch).subset hm)
      have hmcs : k ∉ attrMarkedList pos cs := fun hm =>
        (List.count_eq_zero.mp h2)
          ((attrMarkedList_sublist_nids pos cs).subset hm)
      have hfch : (attrMarkedList pos ch).filter (fun j => !decide (j = k)) =
          attrMarkedList pos ch :=
        List.filter_eq_self.mpr (fun j hj => by
          simp only [Bool.not_eq_true', decide_eq_false_iff_not]
          exact fun hjk => hmch (hjk ▸ hj))
      have hfcs : (attrMarkedList pos cs).filter (fun j => !decide (j = k)) =
          attrMarkedList pos cs :=
        List.filter_eq_self.mpr (fun j hj => by
          simp only [Bool.not_eq_true', decide_eq_false_iff_not]
          exact fun hjk => hmcs (hjk ▸ hj))
      rw [mapNodeList_cons]
      simp only [XNode.nid]
      rw [if_pos hck]
      simp only [attrMarkedList, attrMarked_node, hc, ha,
        Option.isSome_none, Bool.false_eq_true, if_false,
        List.filter_append, hfch, hfcs, List.nil_append]
      simp only [XNode.children, XNode.getAttr, XNode.attrs, XNode.nid]
      by_cases hP : (getAttrList pos a).isSome = true
      · rw [if_pos hP]
        subst hck
        simp
        exact hfch.symm
      · rw [if_neg hP]
        simp
        exact hfch.symm
    · have hik : (i == k) = false := beq_eq_false_iff_ne.mpr hck
      rw [hik] at hcount
      simp only [Bool.false_eq_true, if_false] at hcount
      have h1 : (listNidsList ch).count k ≤ 1 := by omega
      have h2 : (listNidsList cs).count k ≤ 1 := by omega
      rw [mapNodeList_cons]
      simp only [XNode.nid]
      rw [if_neg hck]
      simp only [attrMarkedList, mapNode, attrMarked, XNode.children,
        XNode.getAttr, XNode.attrs, XNode.nid,
        attrMarkedList_mapNodeList_kill pos k f hn hc ha ch h1,
        attrMarkedList_mapNodeList_kill pos k f hn hc ha cs h2,
        List.filter_append]
      congr 1
      congr 1
      by_cases hP : (getAttrList pos a).isSome = true
      · rw [if_pos hP]
        simp [hck]
      · rw [if_neg hP]
        rfl

/-- `appendChild` preserves the identity. -/
theorem appendChild_nid (n c : XNode) : (appendChild n c).nid = n.nid := by
  rw [appendChild_node]
  rfl

/-- `appendChild` preserves the tag. -/
theorem appendChild_tag (n c : XNode) : (appendChild n c).tag = n.tag := by
  rw [appendChild_node]
  rfl

/-- `appendChild` preserves the root attribute lookups. -/
theorem appendChild_getAttr (n c : XNode) (name : String) :
    (appendChild n c).getAttr name = n.getAttr name := by
  rw [appendChild_node]
  rfl

/-- The children after `appendChild`. -/
theorem appendChild_children (n c : XNode) :
    (appendChild n c).children = n.children ++ [c] := by
  rw [appendChild_node]
  rfl

/-- `setAttribute` preserves identity membership. -/
theorem hasNid_setAttr (k : Nat) (n : XNode) (name : String) (v : AttrV) :
    hasNid k (n.setAttr name v) = hasNid k n := by
  rw [hasNid_node, hasNid_node, setAttr_nid, setAttr_children]

mutual

/-- Mutating another identity that the dereferenced node does not contain
leaves the dereference unchanged. -/
theorem findNode_mapNode_ne (k j : Nat) (f : XNode → XNode)
    (hn : ∀ e, (f e).nid = e.nid) (hc : ∀ e, (f e).children = e.children)
    (hj : j ≠ k) :
    ∀ (n : XNode) (el : XNode), findNode j n = some el →
      hasNid k el = false → findNode j (mapNode k f n) = some el
  | .mk i t a ch, el => by
    intro hfind hel
    simp only [findNode, mapNode] at hfind ⊢
    by_cases hij : i = j
    · rw [if_pos hij] at hfind ⊢
      simp only [Option.some.injEq] at hfind
      subst hfind
      have hch : hasNidList k ch = false := by
        simp only [hasNid, Bool.or_eq_false_iff] at hel
        exact hel.2
      rw [mapNodeList_self_of_hasNidList_false k f ch hch]
    · rw [if_neg hij] at hfind ⊢
      exact findNodeList_mapNodeList_ne k j f hn hc hj ch el hfind hel

/-- Forest version of `findNode_mapNode_ne`. -/
theorem findNodeList_mapNodeList_ne (k j : Nat) (f : XNode → XNode)
    (hn : ∀ e, (f e).nid = e.nid) (hc : ∀ e, (f e).children = e.children)
    (hj : j ≠ k) :
    ∀ (cs : List XNode) (el : XNode), findNodeList j cs = some el →
      hasNid k el = false → findNodeList j (mapNodeList k f cs) = some el
  | [], el => by intro h _; simp [findNodeList] at h
  | c :: cs, el => by
    intro hfind hel
    rw [findNodeList] at hfind
    by_cases hck : c.nid = k
    · have hnotf : ¬((f c).nid = j) := by
        rw [hn c, hck]
        exact fun h => hj h.symm
      have hnotc : ¬(c.nid = j) := by
        rw [hck]
        exact fun h => hj h.symm
      rw [mapNodeList_cons, if_pos hck, findNodeList]
      rw [findNode_node, if_neg hnotf, hc c]
      rw [findNode_node, if_neg hnotc] at hfind
      exact hfind
    · rw [mapNodeList_cons, if_neg hck, findNodeList]
      cases hcc : findNode j c with
      | none =>
        simp only [hcc] at hfind
        have hjc : hasNid j c = false := hasNid_false_of_findNode_none j c hcc
        have hjm : hasNid j (mapNode k f c) = false := by
          rw [hasNid_mapNode k j f hn hc c]
          exact hjc
        rw [findNode_none_of_hasNid_false j _ hjm]
        exact findNodeList_mapNodeList_ne k j f hn hc hj cs el hfind hel
      | some r =>
        simp only [hcc, Option.some.injEq] at hfind
        subst hfind
        rw [findNode_mapNode_ne k j f hn hc hj c r hcc hel]

end

mutual

/-- Dereferencing the mutated identity yields the mutated node (the
identity occurs at most once and is not the root). -/
theorem findNode_mapNode_hit (k : Nat) (f : XNode → XNode)
    (hn : ∀ e, (f e).nid = e.nid) :
    ∀ (n : XNode) (el : XNode), n.nid ≠ k → (listNids n).count k ≤ 1 →
      findNode k n = some el → findNode k (mapNode k f n) = some (f el)
  | .mk i t a ch, el => by
    intro hnid hcount hfind
    simp only [XNode.nid] at hnid
    simp only [findNode, mapNode] at hfind ⊢
    rw [if_neg hnid] at hfind
    rw [if_neg hnid]
    refine findNodeList_mapNodeList_hit k f hn ch el ?_ hfind
    have hik : (i == k) = false := beq_eq_false_iff_ne.mpr hnid
    simp only [listNids, List.count_cons, hik, Bool.false_eq_true,
      if_false] at hcount
    omega

/-- Forest version of `findNode_mapNode_hit`. -/
theorem findNodeList_mapNodeList_hit (k : Nat) (f : XNode → XNode)
    (hn : ∀ e, (f e).nid = e.nid) :
    ∀ (cs : List XNode) (el : XNode), (listNidsList cs).count k ≤ 1 →
      findNodeList k cs = some el →
      findNodeList k (mapNodeList k f cs) = some (f el)
  | [], el => by intro _ h; simp [findNodeList] at h
  | c :: cs, el => by
    intro hcount hfind
    rw [findNodeList] at hfind
    simp only [listNidsList, List.count_append] at hcount
    by_cases hck : c.nid = k
    · have hfc : findNode k c = some c := by
        rw [findNode_node, if_pos hck]
      simp only [hfc, Option.some.injEq] at hfind
      subst hfind
      rw [mapNodeList_cons, if_pos hck, findNodeList]
      rw [findNode_node, if_pos (by rw [hn c]; exact hck)]
    · rw [mapNodeList_cons, if_neg hck, findNodeList]
      cases hcc : findNode k c with
      | none =>
        simp only [hcc] at hfind
        have hnc := hasNid_false_of_findNode_none k c hcc
        rw [mapNode_self_of_hasNid_false k f c hnc, hcc]
        exact findNodeList_mapNodeList_hit k f hn cs el (by omega) hfind
      | some r =>
        simp only [hcc, Option.some.injEq] at hfind
        subst hfind
        rw [findNode_mapNode_hit k f hn c r hck (by omega) hcc]

end

mutual

/-- The identities of a fragment located by id lie in the document. -/
theorem findById_nids_subset (idv : String) :
    ∀ (n : XNode) (m : XNode), findById idv n = some m →
      ∀ x, x ∈ listNids m → x ∈ listNids n
  | .mk i t a ch, m => by
    intro h x hx
    rw [findById_node] at h
    simp only [XNode.children] at h
    rw [listNids_node]
    exact List.mem_cons_of_mem _ (findByIdList_nids_subset idv ch m h x hx)

/-- Forest version of `findById_nids_subset`. -/
theorem findByIdList_nids_subset (idv : String) :
    ∀ (cs : List XNode) (m : XNode), findByIdList idv cs = some m →
      ∀ x, x ∈ listNids m → x ∈ listNidsList cs
  | [], m => by intro h; simp [findByIdList] at h
  | c :: cs, m => by
    intro h x hx
    rw [findByIdList] at h
    simp only [listNidsList, List.mem_append]
    by_cases hid : c.getAttr "id" = some (.str idv)
    · rw [if_pos hid] at h
      simp only [Option.some.injEq] at h
      subst h
      exact Or.inl hx
    · rw [if_neg hid] at h
      cases hc : findById idv c with
      | some r =>
        simp only [hc, Option.some.injEq] at h
        subst h
        exact Or.inl (findById_nids_subset idv c r hc x hx)
      | none =>
        simp only [hc] at h
        exact Or.inr (findByIdList_nids_subset idv cs m h x hx)

end

mutual

/-- Any node dereferenced inside a marker-free subtree carries no marker
attribute. -/
theorem markerFree_findNode :
    ∀ (n : XNode), markerFree n = true → ∀ (k : Nat) (el : XNode),
      findNode k n = some el →
      el.getAttr "marker-end" = none ∧ el.getAttr "marker-start" = none
  | .mk i t a ch => by
    intro hmf k el hfind
    simp only [markerFree, Bool.and_eq_true,
      Option.isNone_iff_eq_none] at hmf
    simp only [findNode] at hfind
    by_cases hik : i = k
    · rw [if_pos hik] at hfind
      simp only [Option.some.injEq] at hfind
      subst hfind
      exact ⟨hmf.1.1, hmf.1.2⟩
    · rw [if_neg hik] at hfind
      exact markerFreeList_findNodeList ch hmf.2 k el hfind

/-- Forest version of `markerFree_findNode`. -/
theorem markerFreeList_findNodeList :
    ∀ (cs : List XNode), markerFreeList cs = true → ∀ (k : Nat) (el : XNode),
      findNodeList k cs = some el →
      el.getAttr "marker-end" = none ∧ el.getAttr "marker-start" = none
  | [] => by intro _ k el h; simp [findNodeList] at h
  | c :: cs => by
    intro hmf k el hfind
    rw [markerFreeList_cons, Bool.and_eq_true] at hmf
    rw [findNodeList] at hfind
    cases hc : findNode k c with
    | some r =>
      simp only [hc, Option.some.injEq] at hfind
      subst hfind
      exact markerFree_findNode c hmf.1 k r hc
    | none =>
      simp only [hc] at hfind
      exact markerFreeList_findNodeList cs hmf.2 k el hfind

end

mutual

/-- Dereferencing an identity inside an id-located fragment agrees with
dereferencing it in the whole document (identities are distinct). -/
theorem findNode_findById_sub (idv : String) (k : Nat) :
    ∀ (n : XNode) (m : XNode), findById idv n = some m →
      hasNid k m = true → (listNids n).Nodup → findNode k n = findNode k m
  | .mk i t a ch, m => by
    intro hfb hkm hnd
    rw [findById_node] at hfb
    simp only [XNode.children] at hfb
    rw [listNids_node] at hnd
    simp only [XNode.nid, XNode.children] at hnd
    have hik : i ≠ k := by
      intro hik
      subst hik
      have hkch : i ∈ listNidsList ch :=
        findByIdList_nids_subset idv ch m hfb i ((hasNid_iff_mem i m).mp hkm)
      exact (List.nodup_cons.mp hnd).1 hkch
    simp only [findNode]
    rw [if_neg hik]
    exact findNodeList_findByIdList_sub idv k ch m hfb hkm
      (List.nodup_cons.mp hnd).2

/-- Forest version of `findNode_findById_sub`. -/
theorem findNodeList_findByIdList_sub (idv : String) (k : Nat) :
    ∀ (cs : List XNode) (m : XNode), findByIdList idv cs = some m →
      hasNid k m = true → (listNidsList cs).Nodup →
      findNodeList k cs = findNode k m
  | [], m => by intro h; simp [findByIdList] at h
  | c :: cs, m => by
    intro hfb hkm hnd
    rw [findByIdList] at hfb
    simp only [listNidsList] at hnd
    have hnds := List.nodup_append.mp hnd
    rw [findNodeList]
    by_cases hid : c.getAttr "id" = some (.str idv)
    · rw [if_pos hid] at hfb
      simp only [Option.some.injEq] at hfb
      subst hfb
      have hsome := findNode_isSome_of_hasNid k c hkm
      cases hfc2 : findNode k c with
      | none =>
        rw [hfc2] at hsome
        simp at hsome
      | some r =>
        rfl
    · rw [if_neg hid] at hfb
      cases hc : findById idv c with
      | some r =>
        simp only [hc, Option.some.injEq] at hfb
        subst hfb
        have hkc : hasNid k c = true :=
          (hasNid_iff_mem k c).mpr
            (findById_nids_subset idv c r hc k ((hasNid_iff_mem k r).mp hkm))
        cases hfc : findNode k c with
        | none =>
          have := findNode_isSome_of_hasNid k c hkc
          rw [hfc] at this
          simp at this
        | some r2 =>
          have heq := findNode_findById_sub idv k c r hc hkm hnds.1
          rw [hfc] at heq
          exact heq
      | none =>
        simp only [hc] at hfb
        have hkcs : k ∈ listNidsList cs :=
          findByIdList_nids_subset idv cs m hfb k ((hasNid_iff_mem k m).mp hkm)
        have hknc : k ∉ listNids c := fun hk => hnds.2.2 hk hkcs
        have hfc : findNode k c = none :=
          findNode_none_of_hasNid_false k c (by
            cases hh : hasNid k c
            · rfl
            · exact absurd ((hasNid_iff_mem k c).mp hh) hknc)
        rw [hfc]
        exact findNodeList_findByIdList_sub idv k cs m hfb hkm hnds.2.1

end

/-- A marked element never sits inside the marker-free fragment its
reference resolves to. -/
theorem hasNid_false_of_marker_target (pos : String)
    (hpos : pos = "marker-end" ∨ pos = "marker-start")
    (doc el m : XNode) (k : Nat) (u : AttrV) (idv : String)
    (hnd : (listNids doc).Nodup)
    (hfind : findNode k doc = some el)
    (hattr : el.getAttr pos = some u)
    (hfb : findById idv doc = some m)
    (hmf : markerFree m = true) :
    hasNid k m = false := by
  cases hh : hasNid k m
  · rfl
  · exfalso
    have heq := findNode_findById_sub idv k doc m hfb hh hnd
    rw [hfind] at heq
    have hmfa := markerFree_findNode m hmf k el heq.symm
    rcases hpos with hp | hp <;> subst hp
    · rw [hmfa.1] at hattr
      simp at hattr
    · rw [hmfa.2] at hattr
      simp at hattr

mutual

/-- Mutation preserving id attributes and children preserves a failing id
search. -/
theorem findById_mapNode_none (idv : String) (k : Nat) (f : XNode → XNode)
    (hid : ∀ e, (f e).getAttr "id" = e.getAttr "id")
    (hc : ∀ e, (f e).children = e.children) :
    ∀ (n : XNode), findById idv n = none → findById idv (mapNode k f n) = none
  | .mk i t a ch => by
    intro h
    rw [findById_node] at h
    simp only [XNode.children] at h
    rw [mapNode, findById_node]
    simp only [XNode.children]
    exact findByIdList_mapNodeList_none idv k f hid hc ch h

/-- Forest version of `findById_mapNode_none`. -/
theorem findByIdList_mapNodeList_none (idv : String) (k : Nat)
    (f : XNode → XNode)
    (hid : ∀ e, (f e).getAttr "id" = e.getAttr "id")
    (hc : ∀ e, (f e).children = e.children) :
    ∀ (cs : List XNode), findByIdList idv cs = none →
      findByIdList idv (mapNodeList k f cs) = none
  | [] => by intro _; rfl
  | c :: cs => by
    intro h
    rw [findByIdList] at h
    by_cases hidc : c.getAttr "id" = some (.str idv)
    · rw [if_pos hidc] at h
      simp at h
    · rw [if_neg hidc] at h
      cases hcc : findById idv c with
      | some r =>
        rw [hcc] at h
        cases h
      | none =>
        simp only [hcc] at h
        by_cases hck : c.nid = k
        · rw [mapNodeList_cons, if_pos hck, findByIdList]
          rw [if_neg (by rw [hid c]; exact hidc)]
          rw [findById_node, hc c]
          rw [findById_node] at hcc
          rw [hcc]
          exact h
        · rw [mapNodeList_cons, if_neg hck, findByIdList]
          rw [if_neg (by rw [mapNode_getAttr]; exact hidc)]
          rw [findById_mapNode_none idv k f hid hc c hcc]
          exact findByIdList_mapNodeList_none idv k f hid hc cs h

end

mutual

/-- Mutation preserving id attributes and children preserves an id search
whose result does not contain the mutated identity. -/
theorem findById_mapNode_some (idv : String) (k : Nat) (f : XNode → XNode)
    (hid : ∀ e, (f e).getAttr "id" = e.getAttr "id")
    (hc : ∀ e, (f e).children = e.children) :
    ∀ (n m : XNode), findById idv n = some m → hasNid k m = false →
      findById idv (mapNode k f n) = some m
  | .mk i t a ch, m => by
    intro h hkm
    rw [findById_node] at h
    simp only [XNode.children] at h
    rw [mapNode, findById_node]
    simp only [XNode.children]
    exact findByIdList_mapNodeList_some idv k f hid hc ch m h hkm

/-- Forest version of `findById_mapNode_some`. -/
theorem findByIdList_mapNodeList_some (idv : String) (k : Nat)
    (f : XNode → XNode)
    (hid : ∀ e, (f e).getAttr "id" = e.getAttr "id")
    (hc : ∀ e, (f e).children = e.children) :
    ∀ (cs : List XNode) (m : XNode), findByIdList idv cs = some m →
      hasNid k m = false → findByIdList idv (mapNodeList k f cs) = some m
  | [], m => by intro h _; simp [findByIdList] at h
  | c :: cs, m => by
    intro h hkm
    rw [findByIdList] at h
    by_cases hidc : c.getAttr "id" = some (.str idv)
    · rw [if_pos hidc] at h
      simp only [Option.some.injEq] at h
      subst h
      have hck : hasNid k c = false := hkm
      have hcknid : ¬(c.nid = k) := by
        rw [hasNid_node] at hck
        simp only [Bool.or_eq_false_iff, beq_eq_false_iff_ne] at hck
        exact hck.1
      rw [mapNodeList_cons, if_neg hcknid, findByIdList]
      rw [if_pos (by rw [mapNode_getAttr]; exact hidc)]
      rw [mapNode_self_of_hasNid_false k f c hkm]
    · rw [if_neg hidc] at h
      cases hcc : findById idv c with
      | some r =>
        simp only [hcc, Option.some.injEq] at h
        subst h
        by_cases hck : c.nid = k
        · rw [mapNodeList_cons, if_pos hck, findByIdList]
          rw [if_neg (by rw [hid c]; exact hidc)]
          rw [findById_node, hc c]
          rw [findById_node] at hcc
          rw [hcc]
        · rw [mapNodeList_cons, if_neg hck, findByIdList]
          rw [if_neg (by rw [mapNode_getAttr]; exact hidc)]
          rw [findById_mapNode_some idv k f hid hc c _ hcc hkm]
      | none =>
        simp only [hcc] at h
        by_cases hck : c.nid = k
        · rw [mapNodeList_cons, if_pos hck, findByIdList]
          rw [if_neg (by rw [hid c]; exact hidc)]
          rw [findById_node, hc c]
          rw [findById_node] at hcc
          rw [hcc]
          exact h
        · rw [mapNodeList_cons, if_neg hck, findByIdList]
          rw [if_neg (by rw [mapNode_getAttr]; exact hidc)]
          rw [findById_mapNode_none idv k f hid hc c hcc]
          exact findByIdList_mapNodeList_some idv k f hid hc cs m h hkm

end

/-- Members of a marker-free forest are marker-free. -/
theorem markerFree_of_mem_markerFreeList :
    ∀ (cs : List XNode), markerFreeList cs = true →
      ∀ c ∈ cs, markerFree c = true
  | [] => by intro _ c hc; simp at hc
  | c0 :: cs => by
    intro h c hc
    rw [markerFreeList_cons, Bool.and_eq_true] at h
    rcases List.mem_cons.mp hc with h1 | h1
    · subst h1
      exact h.1
    · exact markerFree_of_mem_markerFreeList cs h.2 c h1

mutual

/-- A marker-free subtree contributes nothing to the attribute-carrier
list. -/
theorem attrMarked_markerFree (pos : String)
    (hpos : pos = "marker-end" ∨ pos = "marker-start") :
    ∀ (n : XNode), markerFree n = true → attrMarked pos n = []
  | .mk i t a ch => by
    intro h
    simp only [markerFree, Bool.and_eq_true, Option.isNone_iff_eq_none] at h
    have hattr : (getAttrList pos a).isSome = false := by
      rcases hpos with hp | hp <;> subst hp
      · simp [h.1.1]
      · simp [h.1.2]
    simp only [attrMarked, hattr, Bool.false_eq_true, if_false,
      List.nil_append, attrMarkedList_markerFreeList pos hpos ch h.2]

/-- Forest version of `attrMarked_markerFree`. -/
theorem attrMarkedList_markerFreeList (pos : String)
    (hpos : pos = "marker-end" ∨ pos = "marker-start") :
    ∀ (cs : List XNode), markerFreeList cs = true → attrMarkedList pos cs = []
  | [] => by intro _; rfl
  | c :: cs => by
    intro h
    rw [markerFreeList_cons, Bool.and_eq_true] at h
    simp only [attrMarkedList, attrMarked_markerFree pos hpos c h.1,
      attrMarkedList_markerFreeList pos hpos cs h.2, List.nil_append]

end

mutual

/-- A subtree with no marker-attribute carriers is marker-free. -/
theorem markerFree_of_attrMarked_nil :
    ∀ (n : XNode), attrMarked "marker-end" n = [] →
      attrMarked "marker-start" n = [] → markerFree n = true
  | .mk i t a ch => by
    intro hE hS
    simp only [attrMarked] at hE hS
    rcases List.append_eq_nil.mp hE with ⟨hE1, hE2⟩
    rcases List.append_eq_nil.mp hS with ⟨hS1, hS2⟩
    have hE1' : (getAttrList "marker-end" a).isNone = true := by
      cases hq : getAttrList "marker-end" a
      · rfl
      · rw [hq] at hE1
        simp at hE1
    have hS1' : (getAttrList "marker-start" a).isNone = true := by
      cases hq : getAttrList "marker-start" a
      · rfl
      · rw [hq] at hS1
        simp at hS1
    simp only [markerFree, hE1', hS1', Bool.true_and,
      markerFree_of_attrMarkedList_nil ch hE2 hS2]

/-- Forest version of `markerFree_of_attrMarked_nil`. -/
theorem markerFree_of_attrMarkedList_nil :
    ∀ (cs : List XNode), attrMarkedList "marker-end" cs = [] →
      attrMarkedList "marker-start" cs = [] → markerFreeList cs = true
  | [] => by intro _ _; rfl
  | c :: cs => by
    intro hE hS
    simp only [attrMarkedList] at hE hS
    rcases List.append_eq_nil.mp hE with ⟨hE1, hE2⟩
    rcases List.append_eq_nil.mp hS with ⟨hS1, hS2⟩
    rw [markerFreeList_cons, Bool.and_eq_true]
    exact ⟨markerFree_of_attrMarked_nil c hE1 hS1,
      markerFree_of_attrMarkedList_nil cs hE2 hS2⟩

end

mutual

/-- The clone counter advances by the subtree size and the clone's
identities are exactly the consumed counter range. -/
theorem cloneFresh_spec :
    ∀ (n : XNode) (ctr : Nat),
      (cloneFresh n ctr).2 = ctr + xsize n ∧
      listNids (cloneFresh n ctr).1 = List.range' ctr (xsize n)
  | .mk i t a ch, ctr => by
    have h := cloneFreshList_spec ch (ctr + 1)
    constructor
    · simp only [cloneFresh, h.1, xsize]
      omega
    · simp only [cloneFresh, listNids, h.2, xsize]
      rw [Nat.add_comm 1 (xsizeList ch), List.range'_succ]

/-- Forest version of `cloneFresh_spec`. -/
theorem cloneFreshList_spec :
    ∀ (cs : List XNode) (ctr : Nat),
      (cloneFreshList cs ctr).2 = ctr + xsizeList cs ∧
      listNidsList (cloneFreshList cs ctr).1 =
        List.range' ctr (xsizeList cs)
  | [], ctr => by simp [cloneFreshList, xsizeList, listNidsList]
  | c :: cs, ctr => by
    have h1 := cloneFresh_spec c ctr
    have h2 := cloneFreshList_spec cs (ctr + xsize c)
    constructor
    · simp only [cloneFreshList, h1.1, h2.1, xsizeList]
      omega
    · simp only [cloneFreshList, listNidsList, h1.1, h1.2, h2.2, xsizeList]
      have hap := List.range'_append ctr (xsize c) (xsizeList cs) 1
      simp only [one_mul] at hap
      rw [hap, Nat.add_comm (xsizeList cs) (xsize c)]

end

/-- Every subtree holds at least one node. -/
theorem xsize_pos (n : XNode) : 1 ≤ xsize n := by
  rw [xsize_node]
  omega

/-- Mutating an identity absent from the appended child commutes with the
append. -/
theorem mapNode_appendChild (k : Nat) (f : XNode → XNode) (D c : XNode)
    (hkc : hasNid k c = false) :
    mapNode k f (appendChild D c) = appendChild (mapNode k f D) c := by
  obtain ⟨i, t, a, ch⟩ := D
  simp only [appendChild, mapNode]
  rw [mapNodeList_append_right k f [c] (by simp [hasNidList, hkc]) ch]

/-- One `processMarker` step on a marked line element, in normal form:
some transform value and trim flag exist such that the step succeeds and
produces the document mutated through the line's identity (trim plus
attribute removal) with a fresh transform-positioned clone of the marker
content appended to the root, the counter advanced past the clone. -/
theorem processMarker_step (O : DomOracle) (trim : JNum) (pos : String)
    (doc el m content : XNode) (rest : List XNode) (ctr k : Nat) (u : String)
    (hfind : findNode k doc = some el)
    (htag : el.tag = "line")
    (hattr : el.getAttr pos = some (AttrV.str u))
    (hu : ¬(u = ""))
    (hfb : findById (stripUrlId u) doc = some m)
    (hch : m.children = content :: rest)
    (hklt : k < ctr) :
    ∃ (v : AttrV) (b : Bool),
      processMarker O trim pos (doc, ctr) k =
        some (appendChild
            (mapNode k
              (fun e => XNode.removeAttr (trimLine O trim e b) pos) doc)
            ((cloneFresh content ctr).1.setAttr "transform" v),
          (cloneFresh content ctr).2) := by
  have hkr : hasNid k (cloneFresh content ctr).1 = false := by
    cases hh : hasNid k (cloneFresh content ctr).1
    · rfl
    · exfalso
      have hmem := (hasNid_iff_mem k _).mp hh
      rw [(cloneFresh_spec content ctr).2] at hmem
      rcases List.mem_range'.mp hmem with ⟨i2, hi2, hk2⟩
      omega
  have hkcl : ∀ v, hasNid k
      ((cloneFresh content ctr).1.setAttr "transform" v) = false := by
    intro v
    rw [hasNid_setAttr]
    exact hkr
  by_cases hpe : pos = "marker-end"
  · subst hpe
    simp only [processMarker, hfind, hattr, attrToStr, hu, hfb, hch, htag,
      String.reduceEq, reduceIte, reduceCtorEq, if_false, if_true]
    rw [mapNode_appendChild k _ _ _ (hkcl _),
      mapNode_mapNode k (fun e => XNode.removeAttr e "marker-end")
        (fun e => trimLine O trim e true)
        (fun e => trimLine_nid O trim e true) doc]
    exact ⟨_, true, rfl⟩
  · simp only [processMarker, hfind, hattr, attrToStr, hu, hfb, hch, htag,
      hpe, String.reduceEq, reduceIte, reduceCtorEq, if_false, if_true]
    rw [mapNode_appendChild k _ _ _ (hkcl _),
      mapNode_mapNode k (fun e => XNode.removeAttr e pos)
        (fun e => trimLine O trim e false)
        (fun e => trimLine_nid O trim e false) doc]
    exact ⟨_, false, rfl⟩

/-- Full marker pass: folding `processMarker` over the current snapshot of
good marked lines succeeds, clears the processed attribute everywhere,
preserves the other marker snapshot together with its goodness, and
appends exactly one child to the root per processed element. -/
theorem processMarker_pass (O : DomOracle) (trim : JNum)
    (pos otherPos : String)
    (hpos : pos = "marker-end" ∨ pos = "marker-start")
    (hop : otherPos = "marker-end" ∨ otherPos = "marker-start")
    (hne : otherPos ≠ pos) :
    ∀ (L : List Nat) (doc : XNode) (ctr : Nat),
      (listNids doc).Nodup →
      (∀ x ∈ listNids doc, x < ctr) →
      queryMarked pos doc = L →
      attrMarked pos doc = L →
      attrMarked otherPos doc = queryMarked otherPos doc →
      (∀ j ∈ L, lineLeafGood pos doc j) →
      (∀ j ∈ queryMarked otherPos doc, lineLeafGood otherPos doc j) →
      ∃ (doc' : XNode) (ctr' : Nat),
        List.foldlM (processMarker O trim pos) (doc, ctr) L =
          some (doc', ctr') ∧
        (listNids doc').Nodup ∧
        (∀ x ∈ listNids doc', x < ctr') ∧
        queryMarked pos doc' = [] ∧
        attrMarked pos doc' = [] ∧
        queryMarked otherPos doc' = queryMarked otherPos doc ∧
        attrMarked otherPos doc' = attrMarked otherPos doc ∧
        (∀ j ∈ queryMarked otherPos doc', lineLeafGood otherPos doc' j) ∧
        doc'.nid = doc.nid ∧ doc'.tag = doc.tag ∧
        doc'.children.length = doc.children.length + L.length
  | [], doc, ctr => by
    intro hnd hlt hq ha hO hgood hgoodO
    exact ⟨doc, ctr, rfl, hnd, hlt, hq, ha, rfl, rfl, hgoodO, rfl, rfl,
      by simp⟩
  | k :: L', doc, ctr => by
    intro hnd hlt hq ha hO hgood hgoodO
    obtain ⟨el, u, m, hfind, htag, helch, hattr, hu, hfb, hmf, hmchne, hkmel⟩ :=
      hgood k (List.mem_cons_self k L')
    obtain ⟨content, rest, hch⟩ :
        ∃ content rest, m.children = content :: rest := by
      cases hmc : m.children with
      | nil => exact absurd hmc hmchne
      | cons c0 cs0 => exact ⟨c0, cs0, rfl⟩
    have hndl := hnd
    rw [listNids_node] at hndl
    have hkch : k ∈ listNidsList doc.children := by
      refine (queryMarkedList_sublist_nids pos doc.children).subset ?_
      rw [← queryMarked_node, hq]
      exact List.mem_cons_self k L'
    have hklt : k < ctr := hlt k (by
      rw [listNids_node]
      exact List.mem_cons_of_mem _ hkch)
    have hnidk : ¬(doc.nid = k) := fun h =>
      (List.nodup_cons.mp hndl).1 (h ▸ hkch)
    obtain ⟨v, b, hstep⟩ := processMarker_step O trim pos doc el m content
      rest ctr k u hfind htag hattr hu hfb hch hklt
    set F := fun e => XNode.removeAttr (trimLine O trim e b) pos with hF
    set clone := (cloneFresh content ctr).1.setAttr "transform" v with hclone
    set ctr1 := (cloneFresh content ctr).2 with hctr1
    set doc1 := appendChild (mapNode k F doc) clone with hdoc1
    have hFn : ∀ e, (F e).nid = e.nid := fun e => by
      simp only [hF]
      rw [removeAttr_nid, trimLine_nid]
    have hFt : ∀ e, (F e).tag = e.tag := fun e => by
      simp only [hF]
      rw [removeAttr_tag, trimLine_tag]
    have hFc : ∀ e, (F e).children = e.children := fun e => by
      simp only [hF]
      rw [removeAttr_children, trimLine_children]
    have hFkill : ∀ e, (F e).getAttr pos = none := fun e => by
      simp only [hF]
      rw [XNode.getAttr, removeAttr_attrs, getAttrList_removeAttrList_self]
    have hox : otherPos ≠ "x1" ∧ otherPos ≠ "y1" ∧ otherPos ≠ "x2" ∧
        otherPos ≠ "y2" := by
      rcases hop with h | h <;> subst h <;> exact ⟨by decide, by decide,
        by decide, by decide⟩
    have hFother : ∀ e, (F e).getAttr otherPos = e.getAttr otherPos :=
      fun e => by
      simp only [hF]
      rw [XNode.getAttr, removeAttr_attrs,
        getAttrList_removeAttrList_ne pos otherPos hne]
      have htr := trimLine_getAttr_ne O trim e b otherPos hox.1 hox.2.1
        hox.2.2.1 hox.2.2.2
      rw [XNode.getAttr] at htr
      exact htr
    have hFotherSome : ∀ e, ((F e).getAttr otherPos).isSome =
        (e.getAttr otherPos).isSome := fun e => by rw [hFother]
    have hpid : ("id" : String) ≠ pos := by
      rcases hpos with h | h <;> subst h <;> decide
    have hFid : ∀ e, (F e).getAttr "id" = e.getAttr "id" := fun e => by
      simp only [hF]
      rw [XNode.getAttr, removeAttr_attrs,
        getAttrList_removeAttrList_ne pos "id" hpid]
      have htr := trimLine_getAttr_ne O trim e b "id" (by decide) (by decide)
        (by decide) (by decide)
      rw [XNode.getAttr] at htr
      exact htr
    have hmfc : markerFree content = true := by
      have hml : markerFreeList m.children = true := by
        rw [markerFree_node, Bool.and_eq_true, Bool.and_eq_true] at hmf
        exact hmf.2
      rw [hch, markerFreeList_cons, Bool.and_eq_true] at hml
      exact hml.1
    have hmfclone : markerFree clone = true := by
      rw [hclone, markerFree_setAttr_transform, markerFree_cloneFresh]
      exact hmfc
    have hcount : (listNidsList doc.children).count k ≤ 1 :=
      List.nodup_iff_count_le_one.mp (List.nodup_cons.mp hndl).2 k
    have hqnodup : (k :: L').Nodup := by
      rw [← hq]
      exact (queryMarked_sublist_nids pos doc).nodup hnd
    have hkL' : k ∉ L' := (List.nodup_cons.mp hqnodup).1
    have hfiltergen : ∀ (l : List Nat), l = k :: L' →
        l.filter (fun j => !decide (j = k)) = L' := by
      intro l hl
      subst hl
      rw [List.filter_cons]
      have hpk : (!decide (k = k)) = false := by simp
      rw [hpk]
      simp only [Bool.false_eq_true, if_false]
      exact List.filter_eq_self.mpr (fun j hj => by
        simp only [Bool.not_eq_true', decide_eq_false_iff_not]
        exact fun hjk => hkL' (hjk ▸ hj))
    have hlnids1 : listNids doc1 =
        listNids doc ++ List.range' ctr (xsize content) := by
      rw [hdoc1, listNids_appendChild, listNids_mapNode k F hFn hFc, hclone,
        listNids_setAttr, (cloneFresh_spec content ctr).2]
    have hctr1e : ctr1 = ctr + xsize content := by
      rw [hctr1, (cloneFresh_spec content ctr).1]
    have hnd1 : (listNids doc1).Nodup := by
      rw [hlnids1]
      refine List.nodup_append.mpr ⟨hnd, List.nodup_range' ctr
        (xsize content), ?_⟩
      intro x hx hxr
      rcases List.mem_range'.mp hxr with ⟨i2, hi2, hx2⟩
      have := hlt x hx
      omega
    have hlt1 : ∀ x ∈ listNids doc1, x < ctr1 := by
      rw [hlnids1, hctr1e]
      intro x hx
      rcases List.mem_append.mp hx with h | h
      · have := hlt x h
        have := xsize_pos content
        omega
      · rcases List.mem_range'.mp h with ⟨i2, hi2, hx2⟩
        omega
    have hclml : markerFreeList [clone] = true := by
      rw [markerFreeList_cons]
      simp only [hmfclone, Bool.true_and]
      rfl
    have hq1 : queryMarked pos doc1 = L' := by
      rw [hdoc1, queryMarked_node, appendChild_children,
        queryMarkedList_append, mapNode_children,
        queryMarkedList_mapNodeList_kill pos k F hFn hFt hFc hFkill
          doc.children hcount,
        queryMarkedList_markerFree pos hpos [clone] hclml, List.append_nil]
      refine hfiltergen _ ?_
      rw [← queryMarked_node, hq]
    have hrootpos : (doc.getAttr pos).isSome = false := by
      cases hsome : (doc.getAttr pos).isSome
      · rfl
      · exfalso
        have haN := ha
        rw [attrMarked_node, hsome] at haN
        simp only [if_true, List.singleton_append] at haN
        have hhead : doc.nid = k := (List.cons.injEq _ _ _ _).mp haN |>.1
        exact hnidk hhead
    have haml : attrMarkedList pos doc.children = k :: L' := by
      have haN := ha
      rw [attrMarked_node, hrootpos] at haN
      simpa using haN
    have hclA : attrMarkedList pos [clone] = [] := by
      simp only [attrMarkedList,
        attrMarked_markerFree pos hpos clone hmfclone, List.append_nil]
    have hA1 : attrMarked pos doc1 = [] ++ L' := by
      rw [hdoc1, attrMarked_node, appendChild_getAttr, mapNode_getAttr,
        hrootpos, appendChild_children, attrMarkedList_append,
        mapNode_children,
        attrMarkedList_mapNodeList_kill pos k F hFn hFc hFkill
          doc.children hcount,
        hclA, List.append_nil]
      simp only [Bool.false_eq_true, if_false, List.nil_append]
      rw [hfiltergen _ haml]
    have hA1' : attrMarked pos doc1 = L' := by
      rw [hA1]
      rfl
    have hclQo : queryMarkedList otherPos [clone] = [] :=
      queryMarkedList_markerFree otherPos hop [clone] hclml
    have hclAo : attrMarkedList otherPos [clone] = [] := by
      simp only [attrMarkedList,
        attrMarked_markerFree otherPos hop clone hmfclone, List.append_nil]
    have hq2 : queryMarked otherPos doc1 = queryMarked otherPos doc := by
      rw [hdoc1, queryMarked_node, appendChild_children,
        queryMarkedList_append, mapNode_children,
        queryMarkedList_mapNodeList_pres otherPos k F hFn hFt hFc
          hFotherSome doc.children,
        hclQo, List.append_nil, ← queryMarked_node]
    have hA2 : attrMarked otherPos doc1 = attrMarked otherPos doc := by
      rw [hdoc1, attrMarked_node, appendChild_getAttr, mapNode_getAttr,
        appendChild_nid, mapNode_nid, appendChild_children,
        attrMarkedList_append, mapNode_children,
        attrMarkedList_mapNodeList_pres otherPos k F hFn hFc
          hFotherSome doc.children,
        hclAo, List.append_nil, ← attrMarked_node]
    have hnid1 : doc1.nid = doc.nid := by
      rw [hdoc1, appendChild_nid, mapNode_nid]
    have htag1 : doc1.tag = doc.tag := by
      rw [hdoc1, appendChild_tag, mapNode_tag]
    have hlen1 : doc1.children.length = doc.children.length + 1 := by
      rw [hdoc1, appendChild_children, mapNode_children]
      simp [mapNodeList_length]
    have hgood1 : ∀ j ∈ L', lineLeafGood pos doc1 j := by
      intro j hj
      obtain ⟨elj, uj, mj, hfj, htj, hcj, haj, huj, hfbj, hmfj, hmcj, hkmj⟩ :=
        hgood j (List.mem_cons_of_mem k hj)
      have hjk : j ≠ k := fun h => hkL' (h ▸ hj)
      have heljnid : elj.nid = j := findNode_nid j doc elj hfj
      have hkelj : hasNid k elj = false := by
        rw [hasNid_node, hcj, heljnid]
        simp [hasNidList, hjk]
      have hjch : j ∈ listNidsList doc.children := by
        refine (queryMarkedList_sublist_nids pos doc.children).subset ?_
        rw [← queryMarked_node, hq]
        exact List.mem_cons_of_mem k hj
      have hnidj : ¬(doc.nid = j) := fun h =>
        (List.nodup_cons.mp hndl).1 (h ▸ hjch)
      have hfjl : findNodeList j doc.children = some elj := by
        rw [findNode_node, if_neg hnidj] at hfj
        exact hfj
      have hfj1 : findNode j doc1 = some elj := by
        rw [hdoc1, findNode_node, appendChild_nid, mapNode_nid]
        rw [if_neg hnidj, appendChild_children, mapNode_children,
          findNodeList_append,
          findNodeList_mapNodeList_ne k j F hFn hFc hjk doc.children elj
            hfjl hkelj]
      have hkmjF : hasNid k mj = false :=
        hasNid_false_of_marker_target pos hpos doc el mj k (AttrV.str u)
          (stripUrlId uj) hnd hfind hattr hfbj hmfj
      have hfbjl : findByIdList (stripUrlId uj) doc.children = some mj := by
        rw [findById_node] at hfbj
        exact hfbj
      have hfbj1 : findById (stripUrlId uj) doc1 = some mj := by
        rw [hdoc1, findById_node, appendChild_children, findByIdList_append,
          mapNode_children,
          findByIdList_mapNodeList_some (stripUrlId uj) k F hFid hFc
            doc.children mj hfbjl hkmjF]
      exact ⟨elj, uj, mj, hfj1, htj, hcj, haj, huj, hfbj1, hmfj, hmcj, hkmj⟩
    have hgoodO1 : ∀ j ∈ queryMarked otherPos doc1,
        lineLeafGood otherPos doc1 j := by
      intro j hjq
      rw [hq2] at hjq
      obtain ⟨elj, uj, mj, hfj, htj, hcj, haj, huj, hfbj, hmfj, hmcj, hkmj⟩ :=
        hgoodO j hjq
      have heljnid : elj.nid = j := findNode_nid j doc elj hfj
      have hjch : j ∈ listNidsList doc.children := by
        refine (queryMarkedList_sublist_nids otherPos doc.children).subset ?_
        rw [← queryMarked_node]
        exact hjq
      have hnidj : ¬(doc.nid = j) := fun h =>
        (List.nodup_cons.mp hndl).1 (h ▸ hjch)
      have hkmjF : hasNid k mj = false :=
        hasNid_false_of_marker_target pos hpos doc el mj k (AttrV.str u)
          (stripUrlId uj) hnd hfind hattr hfbj hmfj
      have hfbjl : findByIdList (stripUrlId uj) doc.children = some mj := by
        rw [findById_node] at hfbj
        exact hfbj
      have hfbj1 : findById (stripUrlId uj) doc1 = some mj := by
        rw [hdoc1, findById_node, appendChild_children, findByIdList_append,
          mapNode_children,
          findByIdList_mapNodeList_some (stripUrlId uj) k F hFid hFc
            doc.children mj hfbjl hkmjF]
      by_cases hjk : j = k
      · subst hjk
        have hele : el = elj := by
          have hfj' := hfj
          rw [hfind] at hfj'
          exact (Option.some.injEq _ _).mp hfj'
        subst hele
        have hfl : findNodeList j doc.children = some el := by
          rw [findNode_node, if_neg hnidk] at hfind
          exact hfind
        have hfj1 : findNode j doc1 = some (F el) := by
          rw [hdoc1, findNode_node, appendChild_nid, mapNode_nid]
          rw [if_neg hnidk, appendChild_children, mapNode_children,
            findNodeList_append,
            findNodeList_mapNodeList_hit j F hFn doc.children el hcount hfl]
        refine ⟨F el, uj, mj, hfj1, ?_, ?_, ?_, huj, hfbj1, hmfj, hmcj, hkmj⟩
        · rw [hFt]
          exact htj
        · rw [hFc]
          exact hcj
        · rw [hFother]
          exact haj
      · have hkelj : hasNid k elj = false := by
          rw [hasNid_node, hcj, heljnid]
          simp [hasNidList, hjk]
        have hfjl : findNodeList j doc.children = some elj := by
          rw [findNode_node, if_neg hnidj] at hfj
          exact hfj
        have hfj1 : findNode j doc1 = some elj := by
          rw [hdoc1, findNode_node, appendChild_nid, mapNode_nid]
          rw [if_neg hnidj, appendChild_children, mapNode_children,
            findNodeList_append,
            findNodeList_mapNodeList_ne k j F hFn hFc hjk doc.children elj
              hfjl hkelj]
        exact ⟨elj, uj, mj, hfj1, htj, hcj, haj, huj, hfbj1, hmfj, hmcj, hkmj⟩
    obtain ⟨doc', ctr', hfold, hnd', hlt', hqf, hAf, hq2f, hA2f, hgoodOf,
        hnidf, htagf, hlenf⟩ :=
      processMarker_pass O trim pos otherPos hpos hop hne L' doc1 ctr1
        hnd1 hlt1 hq1 hA1' (by rw [hA2, hq2]; exact hO) hgood1 hgoodO1
    refine ⟨doc', ctr', ?_, hnd', hlt', hqf, hAf, hq2f.trans hq2,
      hA2f.trans hA2, hgoodOf, hnidf.trans hnid1, htagf.trans htag1, ?_⟩
    · rw [List.foldlM_cons, hstep]
      simpa using hfold
    · rw [hlenf, hlen1]
      simp only [List.length_cons]
      omega

/-- On a good marked document, `embedMarkers` succeeds, the result carries
no marker-reference attribute anywhere, and the root gains exactly one
appended glyph per snapshotted endpoint reference. -/
theorem embedMarkers_goodDoc (O : DomOracle) (trim : JNum) (root : XNode)
    (hg : GoodMarkedDoc root) :
    ∃ root', embedMarkers O root trim = some root' ∧
      markerFree root' = true ∧
      root'.nid = root.nid ∧ root'.tag = root.tag ∧
      root'.children.length = root.children.length +
        (queryMarked "marker-end" root).length +
        (queryMarked "marker-start" root).length := by
  obtain ⟨hnd, hAE, hAS, hgE, hgS⟩ := hg
  have hlt : ∀ x ∈ listNids root, x < maxId root + 1 := fun x hx =>
    Nat.lt_succ_of_le (mem_listNids_le_maxId root x hx)
  obtain ⟨doc1, ctr1, hfold1, hnd1, hlt1, hqE1, hAE1, hqS1, hAS1, hgS1,
      hnid1, htag1, hlen1⟩ :=
    processMarker_pass O trim "marker-end" "marker-start" (Or.inl rfl)
      (Or.inr rfl) (by decide) (queryMarked "marker-end" root) root
      (maxId root + 1) hnd hlt rfl hAE hAS hgE hgS
  obtain ⟨doc2, ctr2, hfold2, hnd2, hlt2, hqS2, hAS2, hqE2, hAE2, hgE2,
      hnid2, htag2, hlen2⟩ :=
    processMarker_pass O trim "marker-start" "marker-end" (Or.inr rfl)
      (Or.inl rfl) (by decide) (queryMarked "marker-start" root) doc1 ctr1
      hnd1 hlt1 hqS1 (hAS1.trans hAS) (hAE1.trans hqE1.symm)
      (fun j hj => hgS1 j (by rw [hqS1]; exact hj))
      (fun j hj => by rw [hqE1] at hj; simp at hj)
  refine ⟨doc2, ?_, ?_, ?_, ?_, ?_⟩
  · simp only [embedMarkers, hfold1, hfold2, Option.bind, bind, pure]
  · exact markerFree_of_attrMarked_nil doc2 (hAE2.trans hAE1) hAS2
  · exact hnid2.trans hnid1
  · exact htag2.trans htag1
  · rw [hlen2, hlen1]

/-- The one-line witness document satisfies all marker-pass side
conditions. -/
theorem witnessDoc_good : GoodMarkedDoc witnessDoc := by
  refine ⟨by decide, rfl, rfl, ?_, ?_⟩
  · intro k hk
    have hk4 : k = 4 := by
      have h : queryMarked "marker-end" witnessDoc = [4] := rfl
      rw [h] at hk
      simpa using hk
    subst hk4
    refine ⟨XNode.mk 4 "line"
        [("x1", AttrV.num (JNum.fin 0)), ("y1", AttrV.num (JNum.fin 0)),
         ("x2", AttrV.num (JNum.fin 10)), ("y2", AttrV.num (JNum.fin 0)),
         ("marker-end", AttrV.str "url(#arrow)"),
         ("marker-start", AttrV.str "url(#arrow)")] [],
      "url(#arrow)",
      XNode.mk 2 "marker"
        [("id", AttrV.str "arrow"), ("refX", AttrV.num (JNum.fin 5)),
         ("refY", AttrV.num (JNum.fin 0))] [witnessContent],
      rfl, rfl, rfl, rfl, by decide, rfl, rfl, by simp [XNode.children], rfl⟩
  · intro k hk
    have hk4 : k = 4 := by
      have h : queryMarked "marker-start" witnessDoc = [4] := rfl
      rw [h] at hk
      simpa using hk
    subst hk4
    refine ⟨XNode.mk 4 "line"
        [("x1", AttrV.num (JNum.fin 0)), ("y1", AttrV.num (JNum.fin 0)),
         ("x2", AttrV.num (JNum.fin 10)), ("y2", AttrV.num (JNum.fin 0)),
         ("marker-end", AttrV.str "url(#arrow)"),
         ("marker-start", AttrV.str "url(#arrow)")] [],
      "url(#arrow)",
      XNode.mk 2 "marker"
        [("id", AttrV.str "arrow"), ("refX", AttrV.num (JNum.fin 5)),
         ("refY", AttrV.num (JNum.fin 0))] [witnessContent],
      rfl, rfl, rfl, rfl, by decide, rfl, rfl, by simp [XNode.children], rfl⟩

/-- C6 (amended, proved for line elements): marker embedding handles only
the line and path elements the snapshots select. On any good marked
document — distinct identities, marker references carried exactly by the
snapshotted elements, each a childless line whose reference resolves to a
marker-free nonempty marker — `embedMarkers` succeeds, removes every
marker-reference attribute, and appends to the root exactly one synthetic
glyph per formerly marked endpoint. On the one-line document family the
output is exact: the line is trimmed at both ends, both marker attributes
are removed, and the two appended glyphs are fresh clones of the marker
content positioned at the endpoint anchors and rotated to the endpoint
angles (the start angle flipped by π). -/
theorem embedMarkers_line_trims_removes_and_appends
    (O : DomOracle) (trim : JNum) (root content : XNode)
    (rX rY x1 y1 x2 y2 : JNum)
    (hroot : GoodMarkedDoc root)
    (hmf : markerFree content = true)
    (hn4 : hasNid 4 content = false) :
    (∃ root', embedMarkers O root trim = some root' ∧
      markerFree root' = true ∧
      root'.nid = root.nid ∧ root'.tag = root.tag ∧
      root'.children.length = root.children.length +
        (queryMarked "marker-end" root).length +
        (queryMarked "marker-start" root).length) ∧
    embedMarkers O (oneLineDoc content rX rY x1 y1 x2 y2) trim =
      some (embedOneLineExpected O trim content rX rY x1 y1 x2 y2) ∧
    markerFree (embedOneLineExpected O trim content rX rY x1 y1 x2 y2) =
      true :=
  ⟨embedMarkers_goodDoc O trim root hroot,
   (embedMarkers_oneLine_exact O trim content rX rY x1 y1 x2 y2 hmf hn4).1,
   (embedMarkers_oneLine_exact O trim content rX rY x1 y1 x2 y2 hmf hn4).2⟩

open JNum in
/-- Witness for C6's amended claim: the one-line witness document is a
good marked document, its marker content is marker-free and avoids the
line's identity, and the claim applies to it on the trivial oracle. -/
theorem embedMarkers_line_trims_removes_and_appends_witness :
    GoodMarkedDoc witnessDoc ∧
    markerFree witnessContent = true ∧
    hasNid 4 witnessContent = false ∧
    ((∃ root', embedMarkers trivialOracle witnessDoc (fin 4) = some root' ∧
        markerFree root' = true ∧
        root'.nid = witnessDoc.nid ∧ root'.tag = witnessDoc.tag ∧
        root'.children.length = witnessDoc.children.length +
          (queryMarked "marker-end" witnessDoc).length +
          (queryMarked "marker-start" witnessDoc).length) ∧
      embedMarkers trivialOracle
          (oneLineDoc witnessContent (fin 5) (fin 0) (fin 0) (fin 0)
            (fin 10) (fin 0)) (fin 4) =
        some (embedOneLineExpected trivialOracle (fin 4) witnessContent
          (fin 5) (fin 0) (fin 0) (fin 0) (fin 10) (fin 0)) ∧
      markerFree (embedOneLineExpected trivialOracle (fin 4) witnessContent
          (fin 5) (fin 0) (fin 0) (fin 0) (fin 10) (fin 0)) = true) :=
  ⟨witnessDoc_good, rfl, rfl,
   embedMarkers_line_trims_removes_and_appends trivialOracle (fin 4)
     witnessDoc witnessContent (fin 5) (fin 0) (fin 0) (fin 0) (fin 10)
     (fin 0) witnessDoc_good rfl rfl⟩
